import Mathlib

/-!
Shallow embedding of the task-board backend (the Convex `tasks` and
`messages` mutation modules), the offline client reducer
(`src/domain/todo.ts`), and the speech-to-text proxy handler
(`api/stt.ts`), together with theorems settling the specification
claims about them.

The database is modelled as explicit lists of rows plus an id counter;
each mutation is a function from arguments, the current wall-clock time
(`Date.now()` is read once per mutation in the source) and the database
to the returned value and the new database.  Mutations that can abort
(a `patch` of a missing id throws in Convex) return `Option`.
-/

/-- JavaScript `String.prototype.trim`, modelled structurally over the
character list (whitespace class: `Char.isWhitespace`) so that concrete
calls evaluate inside proofs. -/
def jsTrim (s : String) : String :=
  ⟨((s.data.dropWhile Char.isWhitespace).reverse.dropWhile Char.isWhitespace).reverse⟩

namespace Convex

/-- Row of the `tasks` table.  The stored `status` is a string because the
mutation layer tolerates legacy values (`active`, `completed`,
`in-progress`) besides the canonical three. -/
structure Task where
  id : Nat
  title : String
  status : String
  description : String
  order : Int
  createdAt : Int
  updatedAt : Int
  deriving DecidableEq, Repr

/-- Row of the `messages` table. -/
structure Message where
  id : Nat
  taskId : String
  text : String
  author : String
  createdAt : Int
  deriving DecidableEq, Repr

/-- Payload of a task event: the optional fields of the `payload` object
in the `task_events` schema (`from`, `to`, `textPreview`, `fromIndex`,
`toIndex`). -/
structure EventPayload where
  fromStatus : Option String
  toStatus : Option String
  textPreview : Option String
  fromIndex : Option Int
  toIndex : Option Int
  deriving DecidableEq, Repr

/-- Row of the `task_events` table. -/
structure TaskEvent where
  id : Nat
  taskId : String
  type : String
  actor : String
  payload : EventPayload
  createdAt : Int
  deriving DecidableEq, Repr

/-- Row of the `app_state` table. -/
structure AppStateRow where
  id : Nat
  key : String
  value : Bool
  createdAt : Int
  updatedAt : Int
  deriving DecidableEq, Repr

/-- The whole database: one list per table (in insertion order, which is
what the un-indexed `collect` iteration sees) plus the id allocator. -/
structure DB where
  tasks : List Task
  messages : List Message
  task_events : List TaskEvent
  app_state : List AppStateRow
  nextId : Nat
  deriving DecidableEq, Repr

/-- Empty payload `{}`. -/
def emptyPayload : EventPayload := ⟨none, none, none, none, none⟩

/-- Key of the demo-seeding flag (`DEMO_SEED_KEY`). -/
def DEMO_SEED_KEY : String := "demo_seeded"

/-- Source `normalizeActor`: trim, allow-list the literal `demo-user`,
collapse everything else (absent included) to `anonymous`. -/
def normalizeActor (actor : Option String) : String :=
  let trimmed := match actor with
    | some a => jsTrim a
    | none => ""
  if trimmed = "demo-user" then "demo-user" else "anonymous"

/-- Source `buildPreview`: first 80 characters. -/
def buildPreview (text : String) : String := text.take 80

/-- Source `nextStatus` (tasks module): the fixed 3-cycle. -/
def nextStatus (status : String) : String :=
  if status = "backlog" then "in_progress"
  else if status = "in_progress" then "done"
  else "backlog"

/-- Source `normalizeLegacyStatus`. -/
def normalizeLegacyStatus (status : Option String) : String :=
  if status = some "active" then "backlog"
  else if status = some "completed" then "done"
  else if status = some "done" then "done"
  else if status = some "in-progress" then "in_progress"
  else if status = some "backlog" then "backlog"
  else if status = some "in_progress" then "in_progress"
  else "backlog"

/-- Source `getNextOrder`: first task of the status column in ascending
`(status, order)` index order, i.e. the minimal `order` of that status;
its order minus one, or `0` for an empty column. -/
def getNextOrder (db : DB) (status : String) : Int :=
  match ((db.tasks.filter (fun t => t.status == status)).map (fun t => t.order)).min? with
  | some m => m - 1
  | none => 0

/-- Convex `ctx.db.get` on the `tasks` table. -/
def getTask (db : DB) (id : Nat) : Option Task :=
  db.tasks.find? (fun t => t.id == id)

/-- Convex `ctx.db.insert` into `task_events`. -/
def insertEvent (db : DB) (taskId : String) (type : String) (actor : String)
    (payload : EventPayload) (createdAt : Int) : DB :=
  { db with
    task_events := db.task_events ++ [⟨db.nextId, taskId, type, actor, payload, createdAt⟩],
    nextId := db.nextId + 1 }

/-- Convex `ctx.db.patch` on a task id: rewrites the fields of the row
with that id, and throws (here: `none`) when no such row exists. -/
def patchTask (db : DB) (id : Nat) (f : Task → Task) : Option DB :=
  if db.tasks.any (fun t => t.id == id) then
    some { db with tasks := db.tasks.map (fun t => if t.id = id then f t else t) }
  else none

/-- Source `create` mutation. -/
def create (db : DB) (titleArg : String) (description : Option String)
    (statusArg : Option String) (orderArg : Option Int) (actor : Option String)
    (now : Int) : Option Nat × DB :=
  let title := jsTrim titleArg
  if title = "" then (none, db)
  else
    let status := normalizeLegacyStatus statusArg
    let order := match orderArg with
      | some o => o
      | none => getNextOrder db status
    let taskId := db.nextId
    let db1 : DB :=
      { db with
        tasks := db.tasks ++ [⟨taskId, title, status, description.getD "", order, now, now⟩],
        nextId := db.nextId + 1 }
    let db2 := insertEvent db1 (toString taskId) "task_created" (normalizeActor actor)
      emptyPayload now
    (some taskId, db2)

/-- Source `setStatus` mutation.  Returns the status string the handler
returns (`none` models the `null` return for a missing task). -/
def setStatus (db : DB) (id : Nat) (statusArg : String) (actor : Option String)
    (now : Int) : Option String × DB :=
  match getTask db id with
  | none => (none, db)
  | some task =>
    let currentStatus := normalizeLegacyStatus (some task.status)
    let targetStatus := normalizeLegacyStatus (some statusArg)
    if currentStatus = targetStatus ∧ task.status = currentStatus then
      (some currentStatus, db)
    else
      let order := getNextOrder db targetStatus
      let db1 : DB :=
        { db with tasks := db.tasks.map (fun t =>
            if t.id = id then { t with status := targetStatus, order := order, updatedAt := now }
            else t) }
      let db2 := insertEvent db1 (toString id) "task_status_changed" (normalizeActor actor)
        ⟨some currentStatus, some targetStatus, none, none, none⟩ now
      (some targetStatus, db2)

/-- Source `cycleStatus` mutation. -/
def cycleStatus (db : DB) (id : Nat) (actor : Option String) (now : Int) :
    Option String × DB :=
  match getTask db id with
  | none => (none, db)
  | some task =>
    let currentStatus := normalizeLegacyStatus (some task.status)
    let status := nextStatus currentStatus
    let order := getNextOrder db status
    let db1 : DB :=
      { db with tasks := db.tasks.map (fun t =>
          if t.id = id then { t with status := status, order := order, updatedAt := now }
          else t) }
    let db2 := insertEvent db1 (toString id) "task_status_changed" (normalizeActor actor)
      ⟨some currentStatus, some status, none, none, none⟩ now
    (some status, db2)

/-- Source `updateDescription` mutation (always returns `null`, so only
the database is returned here). -/
def updateDescription (db : DB) (id : Nat) (description : String)
    (actor : Option String) (now : Int) : DB :=
  match getTask db id with
  | none => db
  | some task =>
    if task.description = description then db
    else
      let db1 : DB :=
        { db with tasks := db.tasks.map (fun t =>
            if t.id = id then { t with description := description, updatedAt := now }
            else t) }
      insertEvent db1 (toString id) "task_description_updated" (normalizeActor actor)
        ⟨none, none, some (buildPreview (jsTrim description)), none, none⟩ now

/-- Source `send` mutation of the messages module. -/
def send (db : DB) (taskId : String) (textArg : String) (authorArg : String)
    (now : Int) : Option Nat × DB :=
  let text := jsTrim textArg
  let author := jsTrim authorArg
  if text = "" ∨ author = "" then (none, db)
  else
    let messageId := db.nextId
    let db1 : DB :=
      { db with
        messages := db.messages ++ [⟨messageId, taskId, text, author, now⟩],
        nextId := db.nextId + 1 }
    let db2 := insertEvent db1 taskId "message_sent" (normalizeActor (some author))
      ⟨none, none, some (buildPreview text), none, none⟩ now
    (some messageId, db2)

/-- One column argument of the `reorder` mutation: a status plus the
explicit ordered id list. -/
structure Column where
  status : String
  orderedIds : List Nat
  deriving DecidableEq, Repr

/-- Arguments of the `reorder` mutation besides the clock. -/
structure ReorderArgs where
  columns : List Column
  movedTaskId : Option Nat
  fromStatus : Option String
  toStatus : Option String
  fromIndex : Option Int
  toIndex : Option Int
  actor : Option String
  deriving DecidableEq, Repr

/-- The patches the inner `for` loops of `reorder` perform, flattened in
loop order: for each column, each listed id paired with its 0-based
position and the column's normalized status. -/
def colEntries (status : String) : Nat → List Nat → List (Nat × Nat × String)
  | _, [] => []
  | i, id :: rest => (id, i, status) :: colEntries status (i + 1) rest

/-- All patches of a `reorder` call, in execution order. -/
def columnPatches (columns : List Column) : List (Nat × Nat × String) :=
  columns.flatMap (fun c => colEntries (normalizeLegacyStatus (some c.status)) 0 c.orderedIds)

/-- The field rewrite one entry of the `reorder` loop performs. -/
def patchOf (now : Int) (p : Nat × Nat × String) (t : Task) : Task :=
  { t with order := Int.ofNat p.2.1, status := p.2.2, updatedAt := now }

/-- One `ctx.db.patch` step of the `reorder` rewrite loop. -/
def applyReorderPatch (now : Int) (db : DB) (p : Nat × Nat × String) : Option DB :=
  patchTask db p.1 (patchOf now p)

/-- The net effect of the whole patch list on a single task: the unique
entry carrying its id, when listed (derived form used by the theorems
about `reorder`). -/
def applyOne (now : Int) (ps : List (Nat × Nat × String)) (t : Task) : Task :=
  match ps.find? (fun p => p.1 == t.id) with
  | some p => patchOf now p t
  | none => t

/-- The order a patch list assigns to a listed task id (derived form
used by the theorems about `reorder`). -/
def ordOf (ps : List (Nat × Nat × String)) (x : Nat) : Int :=
  match ps.find? (fun p => p.1 == x) with
  | some p => Int.ofNat p.2.1
  | none => 0

/-- The audit events the tail of `reorder` inserts, in insertion order
(given the id counter `n` in force when the first of them is inserted). -/
def reorderAuditEvents (args : ReorderArgs) (n : Nat) (now : Int) : List TaskEvent :=
  let moved : List TaskEvent :=
    match args.movedTaskId, args.fromIndex, args.toIndex with
    | some mid, some i, some j =>
      if i ≠ j then
        [⟨n, toString mid, "task_reordered", normalizeActor args.actor,
          ⟨none, none, none, some i, some j⟩, now⟩]
      else []
    | _, _, _ => []
  let statusChanged : List TaskEvent :=
    match args.movedTaskId, args.fromStatus, args.toStatus with
    | some mid, some f, some t =>
      let nf := normalizeLegacyStatus (some f)
      let nt := normalizeLegacyStatus (some t)
      if nf ≠ nt then
        [⟨n + moved.length, toString mid, "task_status_changed", normalizeActor args.actor,
          ⟨some nf, some nt, none, none, none⟩, now⟩]
      else []
    | _, _, _ => []
  moved ++ statusChanged

/-- Source `reorder` mutation: the authoritative column rewrite followed
by the two optional audit-event insertions. -/
def reorder (db : DB) (args : ReorderArgs) (now : Int) : Option DB := do
  let db1 ← (columnPatches args.columns).foldlM (applyReorderPatch now) db
  let db2 :=
    match args.movedTaskId, args.fromIndex, args.toIndex with
    | some mid, some i, some j =>
      if i ≠ j then
        insertEvent db1 (toString mid) "task_reordered" (normalizeActor args.actor)
          ⟨none, none, none, some i, some j⟩ now
      else db1
    | _, _, _ => db1
  let db3 :=
    match args.movedTaskId, args.fromStatus, args.toStatus with
    | some mid, some f, some t =>
      let nf := normalizeLegacyStatus (some f)
      let nt := normalizeLegacyStatus (some t)
      if nf ≠ nt then
        insertEvent db2 (toString mid) "task_status_changed" (normalizeActor args.actor)
          ⟨some nf, some nt, none, none, none⟩ now
      else db2
    | _, _, _ => db2
  some db3

/-- One scripted chat message of a demo template. -/
structure DemoMessage where
  text : String
  offset : Int
  author : String
  deriving DecidableEq, Repr

/-- One demo task template (`messages` is the empty list when the source
omits the optional array, which makes the message loop a no-op either
way). -/
structure DemoTask where
  title : String
  status : String
  order : Int
  description : Option String
  createdOffset : Int
  statusFrom : Option String
  statusOffset : Option Int
  descriptionOffset : Option Int
  messages : List DemoMessage
  deriving DecidableEq, Repr

/-- The three demo languages. -/
inductive DemoLanguage where
  | ru
  | en
  | es
  deriving DecidableEq, Repr

/-- Source `minutes` helper of `seedDemoData`. -/
def minutes (value : Int) : Int := value * 60 * 1000

/-- The per-locale template tables (`demoSeedTemplates`). -/
def demoSeedTemplates : DemoLanguage → List DemoTask
  | .en =>
    [⟨"Plan onboarding checklist", "backlog", 0,
      some "Outline the first-run steps so users reach a task in under 60 seconds.",
      0, none, none, some 6, []⟩,
     ⟨"Define analytics events", "backlog", 1, none, 4, none, none, none, []⟩,
     ⟨"Refine drag-and-drop feel", "in_progress", 0,
      some "Tighten the pickup, keep the card shadow, and avoid layout jitter.",
      12, some "backlog", some 18, some 22,
      [⟨"The card should keep its original shadow while dragging.", 28, "Alex"⟩,
       ⟨"I can ship the motion pass today if we lock the offsets.", 34, "Maria"⟩]⟩,
     ⟨"Draft release notes", "in_progress", 1, none, 20, some "backlog", some 26, none, []⟩,
     ⟨"QA mobile layout", "in_progress", 2,
      some "Verify spacing at 320px and ensure the board stays scrollable.",
      28, some "backlog", some 33, some 38, []⟩,
     ⟨"Set up demo walkthrough", "done", 0, none, 36, some "backlog", some 44, none,
      [⟨"Walkthrough is ready with 5 steps and auto-focus highlights.", 52, "Alex"⟩,
       ⟨"Added a skip button and reset entry for QA.", 58, "Maria"⟩]⟩,
     ⟨"Polish empty state copy", "done", 1,
      some "Make the empty state feel optimistic and action-oriented.",
      42, some "backlog", some 50, some 56, []⟩]
  | .ru =>
    [⟨"Составить чек-лист онбординга", "backlog", 0,
      some "Определить первые шаги так, чтобы пользователь создавал задачу за 60 секунд.",
      0, none, none, some 6, []⟩,
     ⟨"Определить события аналитики", "backlog", 1, none, 4, none, none, none, []⟩,
     ⟨"Улучшить ощущение drag-and-drop", "in_progress", 0,
      some "Подтянуть захват, сохранить тень карточки и убрать дрожание.",
      12, some "backlog", some 18, some 22,
      [⟨"Во время перетаскивания тень карточки должна сохраняться.", 28, "Alex"⟩,
       ⟨"Могу сегодня закоммитить анимацию, если зафиксируем смещения.", 34, "Maria"⟩]⟩,
     ⟨"Набросать заметки к релизу", "in_progress", 1, none, 20, some "backlog", some 26, none, []⟩,
     ⟨"Проверить мобильную верстку", "in_progress", 2,
      some "Проверить отступы на 320px и убедиться, что доска скроллится.",
      28, some "backlog", some 33, some 38, []⟩,
     ⟨"Настроить демо-тур", "done", 0, none, 36, some "backlog", some 44, none,
      [⟨"Демо-тур готов: 5 шагов и автофокус на акцентах.", 52, "Alex"⟩,
       ⟨"Добавила кнопку пропуска и сброс для QA.", 58, "Maria"⟩]⟩,
     ⟨"Отполировать текст пустого состояния", "done", 1,
      some "Сделать сообщение дружелюбным и побуждающим к действию.",
      42, some "backlog", some 50, some 56, []⟩]
  | .es =>
    [⟨"Planificar checklist de onboarding", "backlog", 0,
      some "Definir los primeros pasos para que el usuario cree una tarea en menos de 60 segundos.",
      0, none, none, some 6, []⟩,
     ⟨"Definir eventos de analitica", "backlog", 1, none, 4, none, none, none, []⟩,
     ⟨"Mejorar el arrastre y soltado", "in_progress", 0,
      some "Ajustar el inicio, mantener la sombra de la tarjeta y evitar saltos de layout.",
      12, some "backlog", some 18, some 22,
      [⟨"La tarjeta debe conservar su sombra original mientras se arrastra.", 28, "Alex"⟩,
       ⟨"Puedo entregar la animacion hoy si fijamos los offsets.", 34, "Maria"⟩]⟩,
     ⟨"Redactar notas de version", "in_progress", 1, none, 20, some "backlog", some 26, none, []⟩,
     ⟨"QA del layout movil", "in_progress", 2,
      some "Verificar espaciado a 320px y que el tablero siga siendo desplazable.",
      28, some "backlog", some 33, some 38, []⟩,
     ⟨"Configurar walkthrough de demo", "done", 0, none, 36, some "backlog", some 44, none,
      [⟨"El walkthrough esta listo con 5 pasos y autofoco en los destacados.", 52, "Alex"⟩,
       ⟨"Agregue un boton de omitir y reinicio para QA.", 58, "Maria"⟩]⟩,
     ⟨"Pulir el texto del estado vacio", "done", 1,
      some "Hacer el mensaje del estado vacio optimista y orientado a la accion.",
      42, some "backlog", some 50, some 56, []⟩]

/-- Body of the inner message loop of `seedDemoData`: insert the scripted
message and its `message_sent` event, carrying the running `updatedAt`
maximum. -/
def insertDemoMessage (baseTime : Int) (taskIdString : String)
    (acc : DB × Int) (m : DemoMessage) : DB × Int :=
  let messageAt := baseTime + minutes m.offset
  let dbM : DB :=
    { acc.1 with
      messages := acc.1.messages ++ [⟨acc.1.nextId, taskIdString, m.text, m.author, messageAt⟩],
      nextId := acc.1.nextId + 1 }
  let dbM2 := insertEvent dbM taskIdString "message_sent" "demo-user"
    ⟨none, none, some (buildPreview m.text), none, none⟩ messageAt
  (dbM2, max acc.2 messageAt)

/-- The optional backdated `task_status_changed` insertion of one
seed-loop iteration, paired with the running `updatedAt` maximum. -/
def demoStatusStep (baseTime : Int) (taskIdString : String) (task : DemoTask)
    (createdAt : Int) (db : DB) : DB × Int :=
  match task.statusFrom, task.statusOffset with
  | some sf, some so =>
    let statusAt := baseTime + minutes so
    (insertEvent db taskIdString "task_status_changed" "demo-user"
      ⟨some sf, some task.status, none, none, none⟩ statusAt,
     max createdAt statusAt)
  | _, _ => (db, createdAt)

/-- The optional backdated `task_description_updated` insertion of one
seed-loop iteration. -/
def demoDescriptionStep (baseTime : Int) (taskIdString : String) (task : DemoTask)
    (acc : DB × Int) : DB × Int :=
  match task.description, task.descriptionOffset with
  | some d, some dOff =>
    if d ≠ "" then
      let descriptionAt := baseTime + minutes dOff
      (insertEvent acc.1 taskIdString "task_description_updated" "demo-user"
        ⟨none, none, some (buildPreview d), none, none⟩ descriptionAt,
       max acc.2 descriptionAt)
    else acc
  | _, _ => acc

/-- Body of the `for (const task of demoTasksForInsert)` loop: inserts the
task, its `task_created` event, the optional backdated status and
description events, the scripted messages with their events, and finally
patches `updatedAt` when any backdated record postdates creation. -/
def insertDemoTask (baseTime : Int) (db : DB) (task : DemoTask) : Option DB :=
  let createdAt := baseTime + minutes task.createdOffset
  let taskId := db.nextId
  let dbA : DB :=
    { db with
      tasks := db.tasks ++
        [⟨taskId, task.title, task.status, task.description.getD "", task.order,
          createdAt, createdAt⟩],
      nextId := db.nextId + 1 }
  let taskIdString := toString taskId
  let dbB := insertEvent dbA taskIdString "task_created" "demo-user" emptyPayload createdAt
  let stepStatus := demoStatusStep baseTime taskIdString task createdAt dbB
  let stepDescription := demoDescriptionStep baseTime taskIdString task stepStatus
  let stepMessages : DB × Int :=
    task.messages.foldl (insertDemoMessage baseTime taskIdString) stepDescription
  if stepMessages.2 ≠ createdAt then
    patchTask stepMessages.1 taskId (fun t => { t with updatedAt := stepMessages.2 })
  else some stepMessages.1

/-- Convex `ctx.db.patch` on an `app_state` row id. -/
def patchAppState (db : DB) (id : Nat) (f : AppStateRow → AppStateRow) : Option DB :=
  if db.app_state.any (fun r => r.id == id) then
    some { db with app_state := db.app_state.map (fun r => if r.id = id then f r else r) }
  else none

/-- Source `seedDemoData` mutation: reset-when-already-seeded, then the
template insertion loop, then the flag upsert. -/
def seedDemoData (db : DB) (language : DemoLanguage) (now : Int) : Option DB := do
  let seededDoc := db.app_state.find? (fun r => r.key == DEMO_SEED_KEY)
  let db0 : DB :=
    if (match seededDoc with | some r => r.value | none => false) then
      { db with tasks := [], messages := [], task_events := [] }
    else db
  let baseTime := now - minutes 85
  let db1 ← (demoSeedTemplates language).foldlM (insertDemoTask baseTime) db0
  match seededDoc with
  | some r => patchAppState db1 r.id (fun s => { s with value := true, updatedAt := now })
  | none =>
    some { db1 with
           app_state := db1.app_state ++ [⟨db1.nextId, DEMO_SEED_KEY, true, now, now⟩],
           nextId := db1.nextId + 1 }

/-- Every stored id is below the allocator — the well-formedness the
Convex id allocator maintains. -/
def Wf (db : DB) : Prop :=
  (∀ t ∈ db.tasks, t.id < db.nextId) ∧ (∀ m ∈ db.messages, m.id < db.nextId) ∧
  (∀ e ∈ db.task_events, e.id < db.nextId) ∧ (∀ r ∈ db.app_state, r.id < db.nextId)

/-- `db'` extends `db` purely by rows with ids at or above `n`, leaving
`app_state` untouched (derived form used by the seeding theorems). -/
def ExtendsFrom (n : Nat) (db db' : DB) : Prop :=
  (∃ ts, db'.tasks = db.tasks ++ ts ∧ ∀ t ∈ ts, n ≤ t.id) ∧
  (∃ ms, db'.messages = db.messages ++ ms ∧ ∀ m ∈ ms, n ≤ m.id) ∧
  (∃ es, db'.task_events = db.task_events ++ es ∧ ∀ e ∈ es, n ≤ e.id) ∧
  db'.app_state = db.app_state ∧ db.nextId ≤ db'.nextId

/-- Invariant of the event/message phase of one seed-loop iteration,
relative to the snapshot `db0`: well-formed, task table unchanged,
messages and events extended by fresh rows, `app_state` untouched
(derived form used by the seeding theorems). -/
def GrowsFrom (db0 db : DB) : Prop :=
  Wf db ∧ db.tasks = db0.tasks ∧
  (∃ ms, db.messages = db0.messages ++ ms ∧ ∀ m ∈ ms, db0.nextId ≤ m.id) ∧
  (∃ es, db.task_events = db0.task_events ++ es ∧ ∀ e ∈ es, db0.nextId ≤ e.id) ∧
  db.app_state = db0.app_state ∧ db0.nextId ≤ db.nextId

end Convex

namespace Todo

/-- Canonical task status of the offline reducer (`src/domain/todo.ts`). -/
inductive TaskStatus where
  | backlog
  | in_progress
  | done
  deriving DecidableEq, Repr

/-- Task record of the offline reducer. -/
structure Task where
  id : String
  title : String
  description : String
  status : TaskStatus
  createdAt : Int
  updatedAt : Int
  deriving DecidableEq, Repr

/-- Visibility filter. -/
inductive Filter where
  | all
  | active
  | completed
  deriving DecidableEq, Repr

/-- Reducer state. -/
structure State where
  tasks : List Task
  filter : Filter
  deriving DecidableEq, Repr

/-- Reducer actions (payloads inlined). -/
inductive Action where
  | add (title : String)
  | setStatus (id : String) (status : TaskStatus)
  | cycleStatus (id : String)
  | remove (id : String)
  | restore (task : Task) (index : Int)
  | setFilter (filter : Filter)
  | reorder (orderedIds : List String)
  | rehydrate (state : State)
  | updateDescription (id : String) (description : String)
  deriving DecidableEq, Repr

/-- Source `nextStatus` of the reducer module. -/
def nextStatus : TaskStatus → TaskStatus
  | .backlog => .in_progress
  | .in_progress => .done
  | .done => .backlog

/-- Lookup in the `Map` the reorder branch builds from the task list.
A JavaScript `Map` keeps the last binding of a duplicated key, hence the
reverse search. -/
def mapGet (tasks : List Task) (id : String) : Option Task :=
  tasks.reverse.find? (fun t => t.id == id)

/-- Source `reducer`.  `nowMs` stands for the `now()` clock read the
time-stamping branches perform. -/
def reducer (nowMs : Int) (state : State) (action : Action) : State :=
  match action with
  | .add title =>
    let trimmed := jsTrim title
    if trimmed = "" then state
    else
      { state with tasks :=
          ⟨"t-" ++ toString nowMs, trimmed, "", .backlog, nowMs, nowMs⟩ :: state.tasks }
  | .setStatus id status =>
    let nextTasks := state.tasks.map (fun t =>
      if t.id = id ∧ t.status ≠ status then
        { t with status := status, updatedAt := nowMs }
      else t)
    if state.tasks.any (fun t => t.id == id && t.status != status) then
      { state with tasks := nextTasks }
    else state
  | .cycleStatus id =>
    let nextTasks := state.tasks.map (fun t =>
      if t.id = id then { t with status := nextStatus t.status, updatedAt := nowMs } else t)
    if state.tasks.any (fun t => t.id == id) then { state with tasks := nextTasks } else state
  | .remove id =>
    { state with tasks := state.tasks.filter (fun t => t.id != id) }
  | .restore task index =>
    let safeIndex := min (max 0 index) (Int.ofNat state.tasks.length)
    { state with tasks := state.tasks.insertIdx safeIndex.toNat task }
  | .setFilter filter =>
    { state with filter := filter }
  | .reorder orderedIds =>
    if orderedIds.isEmpty then state
    else
      let nextTasks := orderedIds.filterMap (fun id => mapGet state.tasks id)
      let used := orderedIds.filter (fun id => (mapGet state.tasks id).isSome)
      if nextTasks.isEmpty then state
      else
        { state with tasks := nextTasks ++ state.tasks.filter (fun t => !(used.contains t.id)) }
  | .rehydrate s => s
  | .updateDescription id description =>
    let nextTasks := state.tasks.map (fun t =>
      if t.id = id ∧ t.description ≠ description then
        { t with description := description, updatedAt := nowMs }
      else t)
    if state.tasks.any (fun t => t.id == id && t.description != description) then
      { state with tasks := nextTasks }
    else state

end Todo

namespace Stt

/-!
Model of the speech-to-text proxy handler (`api/stt.ts`).  The handler's
I/O (request-body reading, multipart parsing, the three upstream fetches
and the wall clock driving the poll loop) is parameterized: each upstream
interaction is an oracle value describing what that interaction yielded,
and the 60-second poll budget is a fuel argument bounding how many poll
iterations the clock admits.  The control flow, status codes and response
bodies are translated from the source.
-/

/-- JSON body the handler responds with (the fields that ever occur). -/
structure RespBody where
  text : Option String
  taskId : Option String
  errorMsg : Option String
  statusField : Option String
  deriving DecidableEq, Repr

/-- A finished response plus the number of upstream HTTP requests the
handler issued before responding. -/
structure SttResult where
  code : Nat
  body : RespBody
  upstreamCalls : Nat
  deriving DecidableEq, Repr

/-- Outcome of reading and multipart-parsing the request body. -/
inductive ParseOutcome where
  | throws (msg : String)
  | badContentType
  | noBoundary
  | noFile
  | file
  deriving DecidableEq, Repr

/-- Outcome of the upload fetch. -/
inductive UploadOutcome where
  | throws (msg : String)
  | httpError (code : Nat) (msg : String)
  | okNoTaskId
  | okTask (taskId : String)
  deriving DecidableEq, Repr

/-- Outcome of one status poll fetch. -/
inductive PollOutcome where
  | throws (msg : String)
  | httpError (code : Nat) (msg : String)
  | okStatus (status : Option String)
  deriving DecidableEq, Repr

/-- Outcome of the final transcription fetch; the success payload carries
the `segments` texts and the five string fallback fields the source
inspects (`text`, `transcript`, `transcription`, `result`, `utterance`). -/
inductive TransOutcome where
  | throws (msg : String)
  | httpError (code : Nat) (msg : String)
  | okBody (segments : List String) (fallbackFields : List (Option String))
  deriving DecidableEq, Repr

/-- An `{ error }` response body. -/
def errBody (e : String) : RespBody := ⟨none, none, some e, none⟩

/-- Source text extraction on a 200 transcription response: the trimmed
non-empty segment texts joined with newlines, else the first fallback
field whose trimmed value is non-empty, else the empty string. -/
def extractText (segments : List String) (fallbackFields : List (Option String)) : String :=
  let segmentText := (segments.map jsTrim).filter (fun s => s ≠ "")
  let text := String.intercalate "\n" segmentText
  if text ≠ "" then text
  else
    match fallbackFields.filterMap (fun f =>
        f.bind (fun s => if jsTrim s ≠ "" then some (jsTrim s) else none)) with
    | t :: _ => t
    | [] => ""

/-- Result of the poll loop: either an early full response (a non-ok
status fetch or an exception) or the loop's final `status` value, in both
cases together with the updated upstream-call counter. -/
inductive LoopExit where
  | early (r : SttResult)
  | finished (status : String) (calls : Nat)
  deriving DecidableEq, Repr

/-- The `while (Date.now() - startedAt < timeoutMs)` poll loop.  `fuel`
is how many iterations the remaining time budget admits, `k` indexes the
successive poll fetches into the oracle, `status` the current status
variable (initially `pending`), `calls` the upstream-call counter. -/
def pollLoop (polls : Nat → PollOutcome) : Nat → Nat → String → Nat → LoopExit
  | 0, _, status, calls => .finished status calls
  | fuel + 1, k, status, calls =>
    match polls k with
    | .throws msg => .early ⟨500, errBody msg, calls + 1⟩
    | .httpError c m =>
      .early ⟨c, errBody ("SpeechCore status error " ++ toString c ++ ": " ++ m.take 200),
        calls + 1⟩
    | .okStatus s =>
      let status1 := match s with
        | some s1 => s1
        | none => status
      if status1 = "completed" ∨ status1 = "failed" then .finished status1 (calls + 1)
      else pollLoop polls fuel (k + 1) status1 (calls + 1)

/-- The proxy handler: method gate, fail-closed token gate, body parsing,
upload, bounded poll loop, terminal-state dispatch, transcription fetch.
The token is missing when the environment variable is absent or empty
(both are falsy in the source). -/
def handler (method : String) (token : Option String) (parse : ParseOutcome)
    (upload : UploadOutcome) (polls : Nat → PollOutcome) (fuel : Nat)
    (trans : TransOutcome) : SttResult :=
  if method ≠ "POST" then ⟨405, errBody "Method not allowed", 0⟩
  else if (match token with | none => true | some t => t = "") then
    ⟨400, errBody "Missing SPEECHCORE_API_TOKEN in environment", 0⟩
  else
    match parse with
    | .throws msg => ⟨500, errBody msg, 0⟩
    | .badContentType => ⟨400, errBody "Expected multipart/form-data", 0⟩
    | .noBoundary => ⟨400, errBody "Multipart boundary is missing", 0⟩
    | .noFile => ⟨400, errBody "File not found in field file", 0⟩
    | .file =>
      match upload with
      | .throws msg => ⟨500, errBody msg, 1⟩
      | .httpError c m =>
        ⟨c, errBody ("SpeechCore upload error " ++ toString c ++ ": " ++ m.take 200), 1⟩
      | .okNoTaskId => ⟨502, errBody "SpeechCore did not return task_id", 1⟩
      | .okTask taskId =>
        match pollLoop polls fuel 0 "pending" 1 with
        | .early r => r
        | .finished status calls =>
          if status ≠ "completed" then
            if status = "failed" then
              ⟨502, ⟨none, some taskId, some "SpeechCore: transcription failed", some status⟩,
                calls⟩
            else
              ⟨504, ⟨none, some taskId, some "SpeechCore: transcription timeout", some "timeout"⟩,
                calls⟩
          else
            match trans with
            | .throws msg => ⟨500, errBody msg, calls + 1⟩
            | .httpError c m =>
              ⟨c, errBody ("SpeechCore transcription error " ++ toString c ++ ": " ++ m.take 200),
                calls + 1⟩
            | .okBody segments fallbackFields =>
              ⟨200, ⟨some (extractText segments fallbackFields), some taskId, none, none⟩,
                calls + 1⟩

end Stt

open Convex

/-! ### Helper lemmas about the Convex model -/

namespace Convex

/-- A completely empty database. -/
def dbEmpty : DB := ⟨[], [], [], [], 0⟩

/-- Finding a task in a task list rewritten by an id-preserving function. -/
theorem getTask_map (tasks : List Task) (g : Task → Task)
    (hg : ∀ t, (g t).id = t.id) (id : Nat) :
    (tasks.map g).find? (fun t => t.id == id) =
      (tasks.find? (fun t => t.id == id)).map g := by
  rw [List.find?_map]
  have hfun : ((fun t => t.id == id) ∘ g) = (fun t : Task => t.id == id) := by
    funext t
    simp [Function.comp, hg]
  rw [hfun]

/-- A found task satisfies the id predicate. -/
theorem getTask_id {db : DB} {id : Nat} {task : Task}
    (h : getTask db id = some task) : task.id = id := by
  have := List.find?_some h
  simpa using this

/-- `insertEvent` leaves the task table unchanged. -/
theorem insertEvent_tasks (db : DB) (taskId type actor : String)
    (payload : EventPayload) (createdAt : Int) :
    (insertEvent db taskId type actor payload createdAt).tasks = db.tasks := rfl

/-- Effect of one `cycleStatus` call on the return value and on the
stored task, given the task exists and its cycled status is `s`. -/
theorem cycleStatus_step (db : DB) (id : Nat) (actor : Option String) (now : Int)
    (task : Task) (s : String) (h : getTask db id = some task)
    (hs : nextStatus (normalizeLegacyStatus (some task.status)) = s) :
    (cycleStatus db id actor now).1 = some s ∧
    getTask (cycleStatus db id actor now).2 id =
      some { task with status := s, order := getNextOrder db s, updatedAt := now } := by
  have hid := getTask_id h
  unfold cycleStatus
  rw [h]
  subst hs
  refine ⟨rfl, ?_⟩
  show ((db.tasks.map _).find? _) = _
  rw [getTask_map]
  · unfold getTask at h
    rw [h]
    simp [hid]
  · intro t
    by_cases ht : t.id = id <;> simp [ht]

end Convex

/-! ### Claim C4 -/

/-- Claim C4: `setStatus` on an existing task is a no-op (no patch, no
event, returns the current normalized status) exactly when the target
normalizes to the task's current normalized status and the stored value
is already canonical; otherwise it patches the task, recomputing `order`
by the prepend-into-target-column rule (`getNextOrder`), and records one
`task_status_changed` event with `from`/`to` in its payload. -/
theorem claim_C4_setStatus_noop_or_patch
    (db : DB) (id : Nat) (statusArg : String) (actor : Option String) (now : Int)
    (task : Task) (htask : getTask db id = some task) :
    (normalizeLegacyStatus (some task.status) = normalizeLegacyStatus (some statusArg) ∧
        task.status = normalizeLegacyStatus (some task.status) →
      setStatus db id statusArg actor now =
        (some (normalizeLegacyStatus (some task.status)), db)) ∧
    (¬ (normalizeLegacyStatus (some task.status) = normalizeLegacyStatus (some statusArg) ∧
        task.status = normalizeLegacyStatus (some task.status)) →
      setStatus db id statusArg actor now =
        (some (normalizeLegacyStatus (some statusArg)),
         { db with
           tasks := db.tasks.map (fun t =>
             if t.id = id then
               { t with
                 status := normalizeLegacyStatus (some statusArg),
                 order := getNextOrder db (normalizeLegacyStatus (some statusArg)),
                 updatedAt := now }
             else t),
           task_events := db.task_events ++
             [⟨db.nextId, toString id, "task_status_changed", normalizeActor actor,
               ⟨some (normalizeLegacyStatus (some task.status)),
                some (normalizeLegacyStatus (some statusArg)), none, none, none⟩, now⟩],
           nextId := db.nextId + 1 })) := by
  unfold setStatus
  rw [htask]
  constructor
  · intro h
    simp only [if_pos h]
  · intro h
    simp only [if_neg h]
    rfl

/-- Witness for C4 at a concrete database: one backlog task moved to
`done` takes the patch-and-record branch. -/
theorem claim_C4_setStatus_noop_or_patch_witness :
    setStatus ⟨[⟨0, "T", "backlog", "", 0, 0, 0⟩], [], [], [], 1⟩ 0 "done" none 7 =
      (some "done",
       ({ tasks := [⟨0, "T", "done", "", 0, 0, 7⟩],
          messages := [],
          task_events := [⟨1, "0", "task_status_changed", "anonymous",
            ⟨some "backlog", some "done", none, none, none⟩, 7⟩],
          app_state := [],
          nextId := 2 } : DB)) := by
  have h := (claim_C4_setStatus_noop_or_patch
    ⟨[⟨0, "T", "backlog", "", 0, 0, 0⟩], [], [], [], 1⟩ 0 "done" none 7
    ⟨0, "T", "backlog", "", 0, 0, 0⟩ (by decide)).2 (by decide)
  rw [h]
  decide

/-! ### Claim C5 -/

/-- Claim C5: on a task whose normalized status is `backlog`, three
successive `cycleStatus` calls (at strictly increasing clock readings)
visit `in_progress` and `done` and return the task to `backlog`, with
`updatedAt` strictly increasing across the three status-changing calls. -/
theorem claim_C5_cycleStatus_three_cycle
    (db : DB) (id : Nat) (a1 a2 a3 : Option String) (t1 t2 t3 : Int) (task : Task)
    (htask : getTask db id = some task)
    (hb : normalizeLegacyStatus (some task.status) = "backlog")
    (h12 : t1 < t2) (h23 : t2 < t3) :
    (cycleStatus db id a1 t1).1 = some "in_progress" ∧
    (cycleStatus (cycleStatus db id a1 t1).2 id a2 t2).1 = some "done" ∧
    (cycleStatus (cycleStatus (cycleStatus db id a1 t1).2 id a2 t2).2 id a3 t3).1 =
      some "backlog" ∧
    ∃ u1 u2 u3 : Task,
      getTask (cycleStatus db id a1 t1).2 id = some u1 ∧
      getTask (cycleStatus (cycleStatus db id a1 t1).2 id a2 t2).2 id = some u2 ∧
      getTask (cycleStatus (cycleStatus (cycleStatus db id a1 t1).2 id a2 t2).2 id a3 t3).2 id
        = some u3 ∧
      u1.status = "in_progress" ∧ u2.status = "done" ∧ u3.status = "backlog" ∧
      u1.updatedAt = t1 ∧ u2.updatedAt = t2 ∧ u3.updatedAt = t3 ∧
      u1.updatedAt < u2.updatedAt ∧ u2.updatedAt < u3.updatedAt := by
  obtain ⟨r1, g1⟩ := cycleStatus_step db id a1 t1 task "in_progress" htask
    (by rw [hb]; decide)
  obtain ⟨r2, g2⟩ := cycleStatus_step _ id a2 t2 _ "done" g1 (by rfl)
  obtain ⟨r3, g3⟩ := cycleStatus_step _ id a3 t3 _ "backlog" g2 (by rfl)
  refine ⟨r1, r2, r3, _, _, _, g1, g2, g3, rfl, rfl, rfl, rfl, rfl, rfl, h12, h23⟩

/-- Witness for C5 at a concrete one-task database and clock readings
1 < 2 < 3. -/
theorem claim_C5_cycleStatus_three_cycle_witness :
    (cycleStatus ⟨[⟨0, "T", "backlog", "", 0, 0, 0⟩], [], [], [], 1⟩ 0 none 1).1 =
      some "in_progress" ∧
    (cycleStatus (cycleStatus ⟨[⟨0, "T", "backlog", "", 0, 0, 0⟩], [], [], [], 1⟩ 0 none 1).2
      0 none 2).1 = some "done" ∧
    (cycleStatus (cycleStatus (cycleStatus ⟨[⟨0, "T", "backlog", "", 0, 0, 0⟩], [], [], [], 1⟩
      0 none 1).2 0 none 2).2 0 none 3).1 = some "backlog" := by
  have h := claim_C5_cycleStatus_three_cycle
    ⟨[⟨0, "T", "backlog", "", 0, 0, 0⟩], [], [], [], 1⟩ 0 none none none 1 2 3
    ⟨0, "T", "backlog", "", 0, 0, 0⟩ (by decide) (by decide) (by decide) (by decide)
  exact ⟨h.1, h.2.1, h.2.2.1⟩

/-! ### Trim lemmas -/

/-- `dropWhile` yields a suffix. -/
theorem dropWhile_isSuffix (p : α → Bool) (l : List α) : l.dropWhile p <:+ l := by
  induction l with
  | nil => exact List.suffix_rfl
  | cons a t ih =>
    by_cases h : p a
    · rw [List.dropWhile_cons_of_pos h]
      exact ih.trans (List.suffix_cons a t)
    · rw [List.dropWhile_cons_of_neg h]

/-- The head of `dropWhile p` does not satisfy `p`. -/
theorem head_dropWhile_false (p : α → Bool) (l : List α) :
    ∀ a, (l.dropWhile p).head? = some a → p a = false := by
  induction l with
  | nil => intro a h; cases h
  | cons b t ih =>
    intro a h
    by_cases hb : p b
    · rw [List.dropWhile_cons_of_pos hb] at h
      exact ih a h
    · rw [List.dropWhile_cons_of_neg hb] at h
      cases h
      simpa using hb

/-- `dropWhile` is the identity when the head already fails `p`. -/
theorem dropWhile_eq_self_of_head (p : α → Bool) (l : List α)
    (h : ∀ a, l.head? = some a → p a = false) : l.dropWhile p = l := by
  cases l with
  | nil => rfl
  | cons a t =>
    have := h a rfl
    rw [List.dropWhile_cons_of_neg (by simp [this])]

/-- `jsTrim` is idempotent. -/
theorem jsTrim_idem (s : String) : jsTrim (jsTrim s) = jsTrim s := by
  unfold jsTrim
  set ws := Char.isWhitespace
  set A := s.data.dropWhile ws with hA
  set B := A.reverse.dropWhile ws with hB
  show String.mk _ = String.mk B.reverse
  congr 1
  have hTA : B.reverse <+: A := by
    rw [← List.reverse_suffix]
    simpa using dropWhile_isSuffix ws A.reverse
  have h1 : B.reverse.dropWhile ws = B.reverse := by
    apply dropWhile_eq_self_of_head
    intro a ha
    rcases hTA with ⟨r, hr⟩
    cases hBrev : B.reverse with
    | nil => rw [hBrev] at ha; cases ha
    | cons x t =>
      rw [hBrev] at ha hr
      cases ha
      have : A.head? = some a := by rw [← hr]; rfl
      exact head_dropWhile_false ws s.data a this
  rw [h1]
  have h2 : B.reverse.reverse.dropWhile ws = B := by
    rw [List.reverse_reverse]
    apply dropWhile_eq_self_of_head
    exact head_dropWhile_false ws A.reverse
  rw [h2]

/-! ### Claim C6 -/

namespace Convex

/-- `updateDescription` is a no-op when the stored description already
equals the new one. -/
theorem updateDescription_noop (db : DB) (id : Nat) (text : String)
    (a : Option String) (now : Int) (task : Task)
    (h : getTask db id = some task) (he : task.description = text) :
    updateDescription db id text a now = db := by
  simp [updateDescription, h, he]

end Convex

/-- Counterexample to C6 as stated: on a task whose stored description
already equals the text (here `a`), the first `updateDescription` call is
itself a no-op, so the pair of identical calls performs zero patches and
records zero events, not exactly one of each. -/
theorem claim_C6_counterexample :
    updateDescription
      (updateDescription ⟨[⟨0, "T", "backlog", "a", 0, 0, 0⟩], [], [], [], 1⟩ 0 "a" none 1)
      0 "a" none 2 =
      ⟨[⟨0, "T", "backlog", "a", 0, 0, 0⟩], [], [], [], 1⟩ ∧
    (⟨[⟨0, "T", "backlog", "a", 0, 0, 0⟩], [], [], [], 1⟩ : DB).task_events = [] := by
  decide

/-- Claim C6, amended: provided the stored description differs from the
new text, `updateDescription` followed by an identical call performs
exactly one patch and records exactly one `task_description_updated`
event in total — the first call patches `description` and `updatedAt`
and records the event with a preview of the first 80 characters of the
trimmed text, and the second call is a no-op because the new description
is byte-identical to the stored one. -/
theorem claim_C6_updateDescription_once (db : DB) (id : Nat) (text : String)
    (a1 a2 : Option String) (t1 t2 : Int) (task : Task)
    (htask : getTask db id = some task) (hneq : task.description ≠ text) :
    getTask (updateDescription db id text a1 t1) id =
      some { task with description := text, updatedAt := t1 } ∧
    (updateDescription db id text a1 t1).task_events = db.task_events ++
      [⟨db.nextId, toString id, "task_description_updated", normalizeActor a1,
        ⟨none, none, some (buildPreview (jsTrim text)), none, none⟩, t1⟩] ∧
    updateDescription (updateDescription db id text a1 t1) id text a2 t2 =
      updateDescription db id text a1 t1 := by
  have hid := getTask_id htask
  have hget1 : getTask (updateDescription db id text a1 t1) id =
      some { task with description := text, updatedAt := t1 } := by
    simp only [updateDescription, htask]
    rw [if_neg hneq]
    show ((db.tasks.map _).find? _) = _
    rw [getTask_map]
    · unfold getTask at htask
      rw [htask]
      simp [hid]
    · intro t
      by_cases ht : t.id = id <;> simp [ht]
  refine ⟨hget1, ?_, updateDescription_noop _ _ _ _ _ _ hget1 rfl⟩
  simp only [updateDescription, htask]
  rw [if_neg hneq]
  rfl

/-- Witness for C6 at a concrete database whose stored description is
empty and a non-empty new text. -/
theorem claim_C6_updateDescription_once_witness :
    updateDescription
      (updateDescription ⟨[⟨0, "T", "backlog", "", 0, 0, 0⟩], [], [], [], 1⟩ 0 "hi" none 1)
      0 "hi" none 2 =
      updateDescription ⟨[⟨0, "T", "backlog", "", 0, 0, 0⟩], [], [], [], 1⟩ 0 "hi" none 1 := by
  exact (claim_C6_updateDescription_once
    ⟨[⟨0, "T", "backlog", "", 0, 0, 0⟩], [], [], [], 1⟩ 0 "hi" none none 1 2
    ⟨0, "T", "backlog", "", 0, 0, 0⟩ (by decide) (by decide)).2.2

/-! ### Reorder machinery -/

namespace Convex

/-- The column-rewrite fold of `reorder` touches only the task table. -/
theorem reorderFold_frame (now : Int) :
    ∀ (ps : List (Nat × Nat × String)) (db db' : DB),
      ps.foldlM (applyReorderPatch now) db = some db' →
      db'.task_events = db.task_events ∧ db'.nextId = db.nextId ∧
      db'.messages = db.messages ∧ db'.app_state = db.app_state := by
  intro ps
  induction ps with
  | nil =>
    intro db db' h
    simp only [List.foldlM_nil] at h
    cases h
    exact ⟨rfl, rfl, rfl, rfl⟩
  | cons p ps ih =>
    intro db db' h
    rw [List.foldlM_cons] at h
    cases hp : applyReorderPatch now db p with
    | none => rw [hp] at h; cases h
    | some db1 =>
      rw [hp] at h
      simp only [Option.bind_eq_bind, Option.some_bind] at h
      have h2 := ih db1 db' h
      unfold applyReorderPatch patchTask at hp
      split at hp
      · cases hp
        simpa using h2
      · cases hp

/-- `reorder` written as the column rewrite followed by the bulk append
of its audit events. -/
theorem reorder_eq (db : DB) (args : ReorderArgs) (now : Int) :
    reorder db args now =
      ((columnPatches args.columns).foldlM (applyReorderPatch now) db).map
        (fun db1 =>
          { db1 with
            task_events := db1.task_events ++ reorderAuditEvents args db1.nextId now,
            nextId := db1.nextId + (reorderAuditEvents args db1.nextId now).length }) := by
  unfold reorder
  cases hf : (columnPatches args.columns).foldlM (applyReorderPatch now) db with
  | none => rfl
  | some db1 =>
    simp only [Option.map_some', Option.bind_eq_bind, Option.some_bind]
    unfold reorderAuditEvents
    rcases args.movedTaskId with _ | mid <;>
      rcases args.fromIndex with _ | i <;>
      rcases args.toIndex with _ | j <;>
      rcases args.fromStatus with _ | f <;>
      rcases args.toStatus with _ | t <;>
      simp only [insertEvent] <;>
      (try split_ifs) <;>
      simp [insertEvent, Nat.add_assoc]

end Convex

/-! ### Claim C7 -/

/-- Counterexample to C7 as stated: the supplied actor `" demo-user"`
(leading space) is not the literal string `"demo-user"`, yet the
`task_created` event recorded by `create` carries actor `"demo-user"`,
because the source trims the input before comparing against the
allow-list. -/
theorem claim_C7_counterexample :
    ((create dbEmpty "Task" none none none (some " demo-user") 0).2.task_events.map
      (fun e => e.actor)) = ["demo-user"] ∧ (" demo-user" : String) ≠ "demo-user" := by
  constructor
  · rfl
  · decide

/-- Claim C7, amended: every event-recording operation stamps its events
with `normalizeActor` of the supplied actor (for `send`, of the message
author), and `normalizeActor` yields `"demo-user"` exactly when the
supplied value trims to the literal `"demo-user"` (absent values trim to
the empty string), `"anonymous"` otherwise; `send` stores the trimmed
author itself, unnormalized, in the message row. -/
theorem claim_C7_actor_allowlist_trimmed :
    (∀ a : Option String,
      (normalizeActor a = "demo-user" ↔
        (match a with | some s => jsTrim s | none => "") = "demo-user") ∧
      (normalizeActor a = "demo-user" ∨ normalizeActor a = "anonymous")) ∧
    (∀ (db : DB) (title : String) (d : Option String) (st : Option String)
        (o : Option Int) (a : Option String) (now : Int), jsTrim title ≠ "" →
      ∃ es, (create db title d st o a now).2.task_events = db.task_events ++ es ∧
        es ≠ [] ∧ ∀ e ∈ es, e.actor = normalizeActor a) ∧
    (∀ (db : DB) (id : Nat) (s : String) (a : Option String) (now : Int),
      ∃ es, (setStatus db id s a now).2.task_events = db.task_events ++ es ∧
        ∀ e ∈ es, e.actor = normalizeActor a) ∧
    (∀ (db : DB) (id : Nat) (a : Option String) (now : Int),
      ∃ es, (cycleStatus db id a now).2.task_events = db.task_events ++ es ∧
        ∀ e ∈ es, e.actor = normalizeActor a) ∧
    (∀ (db : DB) (id : Nat) (d : String) (a : Option String) (now : Int),
      ∃ es, (updateDescription db id d a now).task_events = db.task_events ++ es ∧
        ∀ e ∈ es, e.actor = normalizeActor a) ∧
    (∀ (db : DB) (args : ReorderArgs) (now : Int) (db' : DB),
      reorder db args now = some db' →
      ∃ es, db'.task_events = db.task_events ++ es ∧
        ∀ e ∈ es, e.actor = normalizeActor args.actor) ∧
    (∀ (db : DB) (tid text author : String) (now : Int),
      jsTrim text ≠ "" → jsTrim author ≠ "" →
      (send db tid text author now).2.messages =
        db.messages ++ [⟨db.nextId, tid, jsTrim text, jsTrim author, now⟩] ∧
      ∃ es, (send db tid text author now).2.task_events = db.task_events ++ es ∧
        es ≠ [] ∧ ∀ e ∈ es, e.actor = normalizeActor (some author)) := by
  refine ⟨?_, ?_, ?_, ?_, ?_, ?_, ?_⟩
  · intro a
    constructor
    · cases a with
      | none =>
        simp only [normalizeActor]
        constructor
        · intro h
          exact absurd h (by decide)
        · intro h
          exact absurd h (by decide)
      | some s =>
        simp only [normalizeActor]
        by_cases h : jsTrim s = "demo-user" <;> simp [h]
    · cases a with
      | none => right; rfl
      | some s =>
        simp only [normalizeActor]
        by_cases h : jsTrim s = "demo-user" <;> simp [h]
  · intro db title d st o a now h
    refine ⟨[⟨db.nextId + 1, toString db.nextId, "task_created", normalizeActor a,
      emptyPayload, now⟩], ?_, by simp, ?_⟩
    · simp only [create]
      rw [if_neg h]
      rfl
    · intro e he
      simp only [List.mem_singleton] at he
      subst he
      rfl
  · intro db id s a now
    cases h : getTask db id with
    | none => exact ⟨[], by simp [setStatus, h], by simp⟩
    | some task =>
      by_cases hc : (normalizeLegacyStatus (some task.status) =
          normalizeLegacyStatus (some s) ∧
          task.status = normalizeLegacyStatus (some task.status))
      · refine ⟨[], ?_, by simp⟩
        simp only [setStatus, h]
        rw [if_pos hc]
        simp
      · refine ⟨[⟨db.nextId, toString id, "task_status_changed", normalizeActor a,
          ⟨some (normalizeLegacyStatus (some task.status)),
           some (normalizeLegacyStatus (some s)), none, none, none⟩, now⟩], ?_, ?_⟩
        · simp only [setStatus, h]
          rw [if_neg hc]
          rfl
        · intro e he
          simp only [List.mem_singleton] at he
          subst he
          rfl
  · intro db id a now
    cases h : getTask db id with
    | none => exact ⟨[], by simp [cycleStatus, h], by simp⟩
    | some task =>
      refine ⟨[⟨db.nextId, toString id, "task_status_changed", normalizeActor a,
        ⟨some (normalizeLegacyStatus (some task.status)),
         some (nextStatus (normalizeLegacyStatus (some task.status))), none, none, none⟩,
        now⟩], by simp only [cycleStatus, h]; rfl, ?_⟩
      intro e he
      simp only [List.mem_singleton] at he
      subst he
      rfl
  · intro db id d a now
    cases h : getTask db id with
    | none => exact ⟨[], by simp [updateDescription, h], by simp⟩
    | some task =>
      by_cases hc : task.description = d
      · refine ⟨[], ?_, by simp⟩
        simp only [updateDescription, h]
        rw [if_pos hc]
        simp
      · refine ⟨[⟨db.nextId, toString id, "task_description_updated", normalizeActor a,
          ⟨none, none, some (buildPreview (jsTrim d)), none, none⟩, now⟩], ?_, ?_⟩
        · simp only [updateDescription, h]
          rw [if_neg hc]
          rfl
        · intro e he
          simp only [List.mem_singleton] at he
          subst he
          rfl
  · intro db args now db' h
    rw [reorder_eq] at h
    cases hf : (columnPatches args.columns).foldlM (applyReorderPatch now) db with
    | none => rw [hf] at h; cases h
    | some db1 =>
      rw [hf] at h
      simp only [Option.map_some', Option.some.injEq] at h
      subst h
      have hframe := reorderFold_frame now (columnPatches args.columns) db db1 hf
      refine ⟨reorderAuditEvents args db1.nextId now, ?_, ?_⟩
      · show db1.task_events ++ _ = _
        rw [hframe.1]
      · intro e he
        obtain ⟨cols, mt, fs, ts, fi, ti, ac⟩ := args
        unfold reorderAuditEvents at he
        rcases mt with _ | mid <;> rcases fi with _ | i <;> rcases ti with _ | j <;>
          rcases fs with _ | f <;> rcases ts with _ | t <;>
          (try simp only [List.append_nil, List.nil_append, List.not_mem_nil, List.mem_append,
            List.mem_singleton, or_false, false_or] at he) <;>
          (try split_ifs at he) <;>
          (try simp only [List.append_nil, List.nil_append, List.not_mem_nil, List.mem_append,
            List.mem_singleton, or_false, false_or] at he) <;>
          first
            | exact he.elim
            | (subst he; rfl)
            | (rcases he with h1 | h1 <;> subst h1 <;> rfl)
  · intro db tid text author now ht ha
    have hcond : ¬ (jsTrim text = "" ∨ jsTrim author = "") := by
      simp [ht, ha]
    constructor
    · simp only [send]
      rw [if_neg hcond]
      rfl
    · refine ⟨[⟨db.nextId + 1, tid, "message_sent", normalizeActor (some (jsTrim author)),
        ⟨none, none, some (buildPreview (jsTrim text)), none, none⟩, now⟩], ?_, by simp, ?_⟩
      · simp only [send]
        rw [if_neg hcond]
        rfl
      · intro e he
        simp only [List.mem_singleton] at he
        subst he
        simp [normalizeActor, jsTrim_idem]

/-- Witness for C7: the trimmed allow-list at `" demo-user"`, and the
`send`-by-`"Bob"` scenario (author stored verbatim, event actor
`normalizeActor "Bob"`, which computes to `"anonymous"`). -/
theorem claim_C7_actor_allowlist_trimmed_witness :
    normalizeActor (some " demo-user") = "demo-user" ∧
    (send dbEmpty "t1" "hi" "Bob" 5).2.messages =
      dbEmpty.messages ++ [⟨dbEmpty.nextId, "t1", jsTrim "hi", jsTrim "Bob", 5⟩] ∧
    (∃ es, (send dbEmpty "t1" "hi" "Bob" 5).2.task_events = dbEmpty.task_events ++ es ∧
      es ≠ [] ∧ ∀ e ∈ es, e.actor = normalizeActor (some "Bob")) ∧
    normalizeActor (some "Bob") = "anonymous" := by
  have h := claim_C7_actor_allowlist_trimmed
  have h7 := h.2.2.2.2.2.2 dbEmpty "t1" "hi" "Bob" 5 (by decide) (by decide)
  exact ⟨(h.1 (some " demo-user")).1.mpr (by decide), h7.1, h7.2, by decide⟩

/-! ### Claim C3 -/

/-- Counterexample to C3 as stated: with `fromStatus` and `toStatus`
given and normalizing to different values but `movedTaskId` absent, the
code records no `task_status_changed` event, while the claim as stated
requires one; the call below leaves the database (and its empty event
table) unchanged. -/
theorem claim_C3_counterexample :
    reorder dbEmpty ⟨[], none, some "backlog", some "done", none, none, none⟩ 0 =
      some dbEmpty ∧
    normalizeLegacyStatus (some "backlog") ≠ normalizeLegacyStatus (some "done") ∧
    dbEmpty.task_events = [] := by
  exact ⟨rfl, by decide, rfl⟩

/-- Claim C3, amended: a successful `reorder` appends exactly its audit
events: one `task_reordered` event (carrying `fromIndex`/`toIndex` in
its payload) exactly when `movedTaskId` is given together with numeric
`fromIndex` and `toIndex` that differ, and one additional
`task_status_changed` event exactly when `movedTaskId` is given — this
condition is what the claim omitted — together with `fromStatus` and
`toStatus` that normalize to different values; and the audit metadata
never affects the task placement performed by the column rewrite. -/
theorem claim_C3_reorder_audit_events (db : DB) (args : ReorderArgs) (now : Int) (db' : DB)
    (h : reorder db args now = some db') :
    db'.task_events = db.task_events ++ reorderAuditEvents args db.nextId now ∧
    ((reorderAuditEvents args db.nextId now).filter
        (fun e => e.type == "task_reordered")).length =
      (match args.movedTaskId, args.fromIndex, args.toIndex with
       | some _, some i, some j => if i ≠ j then 1 else 0
       | _, _, _ => 0) ∧
    ((reorderAuditEvents args db.nextId now).filter
        (fun e => e.type == "task_status_changed")).length =
      (match args.movedTaskId, args.fromStatus, args.toStatus with
       | some _, some f, some t =>
         if normalizeLegacyStatus (some f) ≠ normalizeLegacyStatus (some t) then 1 else 0
       | _, _, _ => 0) ∧
    (∀ e ∈ reorderAuditEvents args db.nextId now, e.type = "task_reordered" →
      e.payload.fromIndex = args.fromIndex ∧ e.payload.toIndex = args.toIndex) ∧
    (∀ args2 : ReorderArgs, args2.columns = args.columns →
      (reorder db args2 now).map DB.tasks = (reorder db args now).map DB.tasks) := by
  rw [reorder_eq] at h
  cases hf : (columnPatches args.columns).foldlM (applyReorderPatch now) db with
  | none => rw [hf] at h; cases h
  | some db1 =>
    rw [hf] at h
    simp only [Option.map_some', Option.some.injEq] at h
    subst h
    have hframe := reorderFold_frame now (columnPatches args.columns) db db1 hf
    refine ⟨?_, ?_, ?_, ?_, ?_⟩
    · show db1.task_events ++ _ = _
      rw [hframe.1, hframe.2.1]
    · obtain ⟨cols, mt, fs, ts, fi, ti, ac⟩ := args
      rcases mt with _ | mid <;> rcases fi with _ | i <;> rcases ti with _ | j <;>
        rcases fs with _ | f <;> rcases ts with _ | t <;>
        unfold reorderAuditEvents <;>
        (try simp) <;>
        (try split_ifs) <;>
        (try simp)
    · obtain ⟨cols, mt, fs, ts, fi, ti, ac⟩ := args
      rcases mt with _ | mid <;> rcases fi with _ | i <;> rcases ti with _ | j <;>
        rcases fs with _ | f <;> rcases ts with _ | t <;>
        unfold reorderAuditEvents <;>
        (try simp) <;>
        (try split_ifs) <;>
        (try simp)
    · intro e he htype
      obtain ⟨cols, mt, fs, ts, fi, ti, ac⟩ := args
      unfold reorderAuditEvents at he
      rcases mt with _ | mid <;> rcases fi with _ | i <;> rcases ti with _ | j <;>
        rcases fs with _ | f <;> rcases ts with _ | t <;>
        (try simp only [List.append_nil, List.nil_append, List.not_mem_nil, List.mem_append,
          List.mem_singleton, or_false, false_or] at he) <;>
        (try split_ifs at he) <;>
        (try simp only [List.append_nil, List.nil_append, List.not_mem_nil, List.mem_append,
          List.mem_singleton, or_false, false_or] at he) <;>
        first
          | exact he.elim
          | (subst he; exact ⟨rfl, rfl⟩)
          | (subst he; exact absurd htype (by simp))
          | (rcases he with h1 | h1 <;> subst h1 <;>
              first
                | exact ⟨rfl, rfl⟩
                | exact absurd htype (by simp))
    · intro args2 h2
      rw [reorder_eq, reorder_eq, h2, hf]
      rfl

/-- Witness for C3 at a concrete two-task database: a cross-column move
with full metadata records exactly one `task_reordered` and one
`task_status_changed` event. -/
theorem claim_C3_reorder_audit_events_witness :
    ((reorderAuditEvents ⟨[⟨"done", [1, 0]⟩], some 1, some "backlog", some "done",
        some 2, some 0, none⟩ 2 9).filter (fun e => e.type == "task_reordered")).length = 1 ∧
    ((reorderAuditEvents ⟨[⟨"done", [1, 0]⟩], some 1, some "backlog", some "done",
        some 2, some 0, none⟩ 2 9).filter
          (fun e => e.type == "task_status_changed")).length = 1 := by
  have h := claim_C3_reorder_audit_events
    ⟨[⟨0, "A", "done", "", 0, 0, 0⟩, ⟨1, "B", "backlog", "", 0, 0, 0⟩], [], [], [], 2⟩
    ⟨[⟨"done", [1, 0]⟩], some 1, some "backlog", some "done", some 2, some 0, none⟩ 9
    ⟨[⟨0, "A", "done", "", 1, 0, 9⟩, ⟨1, "B", "done", "", 0, 0, 9⟩], [],
     [⟨2, "1", "task_reordered", "anonymous", ⟨none, none, none, some 2, some 0⟩, 9⟩,
      ⟨3, "1", "task_status_changed", "anonymous",
       ⟨some "backlog", some "done", none, none, none⟩, 9⟩], [], 4⟩
    (by decide)
  exact ⟨h.2.1.trans (by decide), h.2.2.1.trans (by decide)⟩

/-! ### Claim C1 -/

namespace Convex

/-- `patchOf` keeps the task id. -/
theorem patchOf_id (now : Int) (p : Nat × Nat × String) (t : Task) :
    (patchOf now p t).id = t.id := rfl

/-- `applyOne` keeps the task id. -/
theorem applyOne_id (now : Int) (ps : List (Nat × Nat × String)) (t : Task) :
    (applyOne now ps t).id = t.id := by
  unfold applyOne
  cases h : ps.find? (fun p => p.1 == t.id) with
  | none => rfl
  | some p => exact patchOf_id now p t

/-- Distinct images under `f` pin down elements of a list with `Nodup`
image. -/
theorem nodup_map_unique {α β : Type} (f : α → β) {ps : List α}
    (h : (ps.map f).Nodup) {a b : α} (ha : a ∈ ps) (hb : b ∈ ps) (hf : f a = f b) :
    a = b := by
  induction ps with
  | nil => cases ha
  | cons p ps ih =>
    rw [List.map_cons, List.nodup_cons] at h
    rcases List.mem_cons.mp ha with ha1 | ha1 <;> rcases List.mem_cons.mp hb with hb1 | hb1
    · rw [ha1, hb1]
    · subst ha1
      have hmem : f a ∈ ps.map f := by rw [hf]; exact List.mem_map_of_mem f hb1
      exact absurd hmem h.1
    · subst hb1
      have hmem : f b ∈ ps.map f := by rw [← hf]; exact List.mem_map_of_mem f ha1
      exact absurd hmem h.1
    · exact ih h.2 ha1 hb1

/-- Closed form of the `reorder` rewrite fold: when the listed ids are
pairwise distinct and all present, the fold succeeds and rewrites each
task by its unique patch entry. -/
theorem reorderFold_closed (now : Int) :
    ∀ (ps : List (Nat × Nat × String)) (db : DB),
      (ps.map Prod.fst).Nodup →
      (∀ p ∈ ps, db.tasks.any (fun t => t.id == p.1)) →
      ps.foldlM (applyReorderPatch now) db =
        some { db with tasks := db.tasks.map (applyOne now ps) } := by
  intro ps
  induction ps with
  | nil =>
    intro db _ _
    simp only [List.foldlM_nil]
    have h1 : db.tasks.map (applyOne now []) = db.tasks := by
      have h0 : applyOne now [] = fun t : Task => t := by
        funext t
        rfl
      rw [h0, List.map_id']
    rw [h1]
    rfl
  | cons p ps ih =>
    intro db hnd hex
    have hnd1 : (p.1 :: ps.map Prod.fst).Nodup := by simpa using hnd
    have hnotin : p.1 ∉ ps.map Prod.fst := (List.nodup_cons.mp hnd1).1
    have hnd' : (ps.map Prod.fst).Nodup := (List.nodup_cons.mp hnd1).2
    have hexp : db.tasks.any (fun t => t.id == p.1) := hex p (List.mem_cons_self p ps)
    rw [List.foldlM_cons]
    have hpatch : applyReorderPatch now db p =
        some { db with tasks := db.tasks.map (fun t =>
          if t.id = p.1 then patchOf now p t else t) } := by
      unfold applyReorderPatch patchTask
      rw [if_pos hexp]
    rw [hpatch]
    simp only [Option.bind_eq_bind, Option.some_bind]
    have hgid : ∀ t : Task, ((fun t => if t.id = p.1 then patchOf now p t else t) t).id = t.id := by
      intro t
      by_cases ht : t.id = p.1 <;> simp [ht, patchOf_id]
    have hex' : ∀ q ∈ ps,
        (db.tasks.map (fun t => if t.id = p.1 then patchOf now p t else t)).any
          (fun t => t.id == q.1) := by
      intro q hq
      have hbase := hex q (List.mem_cons_of_mem p hq)
      rw [List.any_map]
      have hfun : ((fun t : Task => t.id == q.1) ∘
          (fun t => if t.id = p.1 then patchOf now p t else t)) =
          (fun t : Task => t.id == q.1) := by
        funext t
        simp [Function.comp, hgid t]
      rw [hfun]
      exact hbase
    rw [ih _ hnd' hex']
    have hnone : ps.find? (fun q => q.1 == p.1) = none := by
      rw [List.find?_eq_none]
      intro q hq
      simp only [beq_iff_eq]
      intro hqe
      exact hnotin (hqe ▸ List.mem_map_of_mem Prod.fst hq)
    have hpt : ∀ t ∈ db.tasks,
        applyOne now ps (if t.id = p.1 then patchOf now p t else t) =
          applyOne now (p :: ps) t := by
      intro t _
      by_cases ht : t.id = p.1
      · rw [if_pos ht]
        unfold applyOne
        simp only [patchOf_id]
        rw [ht, hnone, List.find?_cons_of_pos _ (by simp)]
      · rw [if_neg ht]
        unfold applyOne
        rw [List.find?_cons_of_neg _ (by simp; exact fun h => ht h.symm)]
    have hmaps : (db.tasks.map (fun t => if t.id = p.1 then patchOf now p t else t)).map
        (applyOne now ps) = db.tasks.map (applyOne now (p :: ps)) := by
      rw [List.map_map]
      exact List.map_congr_left hpt
    rw [hmaps]

/-- Membership in `colEntries` from a positional lookup. -/
theorem colEntries_mem (status : String) :
    ∀ (l : List Nat) (k i : Nat) (id : Nat), l.get? i = some id →
      (id, k + i, status) ∈ colEntries status k l := by
  intro l
  induction l with
  | nil => intro k i id h; cases h
  | cons a t ih =>
    intro k i id h
    cases i with
    | zero =>
      cases h
      exact List.mem_cons_self _ _
    | succ i =>
      have := ih (k + 1) i id h
      have harith : k + 1 + i = k + (i + 1) := by omega
      rw [harith] at this
      exact List.mem_cons_of_mem _ this

end Convex

/-- Claim C1: a `reorder` call whose columns list pairwise-distinct,
existing task ids rewrites every listed task: its `order` becomes its
0-based position in its column's `orderedIds`, and its status becomes
the column's normalized status, regardless of the task's prior status
or column membership. -/
theorem claim_C1_reorder_column_rewrite (db : DB) (args : ReorderArgs) (now : Int)
    (hnodup : ((columnPatches args.columns).map Prod.fst).Nodup)
    (hex : ∀ p ∈ columnPatches args.columns, db.tasks.any (fun t => t.id == p.1)) :
    ∃ db', reorder db args now = some db' ∧
      ∀ c ∈ args.columns, ∀ (i : Nat) (id : Nat), c.orderedIds.get? i = some id →
        ∀ t ∈ db'.tasks, t.id = id →
          t.order = Int.ofNat i ∧ t.status = normalizeLegacyStatus (some c.status) := by
  rw [reorder_eq, reorderFold_closed now _ db hnodup hex]
  refine ⟨_, rfl, ?_⟩
  intro c hc i id hget t ht htid
  simp only [List.mem_map] at ht
  obtain ⟨t0, ht0, ht0e⟩ := ht
  have hentry : (id, i, normalizeLegacyStatus (some c.status)) ∈ columnPatches args.columns := by
    unfold columnPatches
    rw [List.mem_flatMap]
    exact ⟨c, hc, by simpa using colEntries_mem _ c.orderedIds 0 i id hget⟩
  have ht0id : t0.id = id := by rw [← htid, ← ht0e, applyOne_id]
  subst ht0e
  unfold applyOne
  cases hfind : (columnPatches args.columns).find? (fun p => p.1 == t0.id) with
  | none =>
    rw [List.find?_eq_none] at hfind
    exact absurd (by simp [ht0id]) (hfind _ hentry)
  | some q =>
    have hq1 : q.1 = t0.id := by
      have := List.find?_some hfind
      simpa using this
    have hqmem := List.mem_of_find?_eq_some hfind
    have : q = (id, i, normalizeLegacyStatus (some c.status)) :=
      nodup_map_unique Prod.fst hnodup hqmem hentry (by rw [hq1, ht0id])
    subst this
    exact ⟨rfl, rfl⟩

/-! ### Claim C2 -/

namespace Convex

/-- The first components of `colEntries` are the listed ids. -/
theorem colEntries_map_fst (status : String) :
    ∀ (l : List Nat) (k : Nat), (colEntries status k l).map Prod.fst = l := by
  intro l
  induction l with
  | nil => intro k; rfl
  | cons a t ih =>
    intro k
    simp only [colEntries, List.map_cons, ih]

/-- Every entry of `colEntries` carries the column status and a listed
id. -/
theorem colEntries_mem_inv (status : String) :
    ∀ (l : List Nat) (k : Nat) (q : Nat × Nat × String),
      q ∈ colEntries status k l → q.2.2 = status ∧ q.1 ∈ l := by
  intro l
  induction l with
  | nil => intro k q h; cases h
  | cons a t ih =>
    intro k q h
    rcases List.mem_cons.mp h with h1 | h1
    · subst h1
      exact ⟨rfl, List.mem_cons_self a t⟩
    · obtain ⟨h2, h3⟩ := ih (k + 1) q h1
      exact ⟨h2, List.mem_cons_of_mem a h3⟩

/-- A member's block is a sublist of the flat map. -/
theorem sublist_flatMap {α β : Type} (f : α → List β) {l : List α} {a : α}
    (h : a ∈ l) : List.Sublist (f a) (l.flatMap f) := by
  induction l with
  | nil => cases h
  | cons b t ih =>
    rcases List.mem_cons.mp h with h1 | h1
    · rw [List.flatMap_cons, h1]
      exact List.sublist_append_left (f b) (t.flatMap f)
    · rw [List.flatMap_cons]
      exact (ih h1).trans (List.sublist_append_right (f b) _)

/-- On a duplicate-free patch list, `ordOf` enumerates each listed
column positionally. -/
theorem ordOf_map_range (ps : List (Nat × Nat × String)) (ids : List Nat) (s : String)
    (hnd : (ps.map Prod.fst).Nodup)
    (hsub : ∀ (i : Nat) (id : Nat), ids.get? i = some id → (id, i, s) ∈ ps) :
    ids.map (ordOf ps) = (List.range ids.length).map Int.ofNat := by
  apply List.ext_getElem
  · simp
  · intro i h1 h2
    have hlen : i < ids.length := by simpa using h1
    simp only [List.getElem_map, List.getElem_range]
    have hget : ids.get? i = some ids[i] := by
      rw [List.get?_eq_getElem?]
      exact List.getElem?_eq_getElem hlen
    have hmem := hsub i ids[i] hget
    unfold ordOf
    cases hf : ps.find? (fun p => p.1 == ids[i]) with
    | none =>
      rw [List.find?_eq_none] at hf
      exact absurd (by simp) (hf _ hmem)
    | some q =>
      have hq : q = (ids[i], i, s) :=
        nodup_map_unique Prod.fst hnd (List.mem_of_find?_eq_some hf) hmem
          (by simpa using List.find?_some hf)
      rw [hq]

end Convex

/-- Counterexample to C2 as stated: a `reorder` whose single column
lists only one task while another task already sits in the `done`
column with the same order leaves the `done` column with orders
`[0, 0]` — not unique, hence not contiguous from 0. -/
theorem claim_C2_counterexample :
    reorder ⟨[⟨0, "A", "done", "", 0, 0, 0⟩, ⟨1, "B", "backlog", "", 5, 0, 0⟩],
        [], [], [], 2⟩
      ⟨[⟨"done", [1]⟩], none, none, none, none, none, none⟩ 7 =
      some ⟨[⟨0, "A", "done", "", 0, 0, 0⟩, ⟨1, "B", "done", "", 0, 0, 7⟩], [], [], [], 2⟩ ∧
    ((⟨[⟨0, "A", "done", "", 0, 0, 0⟩, ⟨1, "B", "done", "", 0, 0, 7⟩], [], [], [], 2⟩ :
        DB).tasks.filter (fun t => t.status == "done")).map (fun t => t.order) = [0, 0] ∧
    ¬ ([0, 0] : List Int).Nodup := by
  refine ⟨by decide, by decide, by decide⟩

/-- Claim C2, amended: after a `reorder` whose flattened column patches
have pairwise-distinct existing ids, whose columns have pairwise-distinct
normalized statuses, and whose columns jointly list every task sitting
in (or moved into) an affected status — i.e. any unlisted task's stored
status differs from every affected normalized status — the orders within
each affected status column are exactly a permutation of 0,…,n−1, hence
unique and contiguous from 0.  (As stated the claim fails: the rewrite
does not touch unlisted tasks, see the counterexample.) -/
theorem claim_C2_reorder_orders_contiguous (db : DB) (args : ReorderArgs) (now : Int)
    (hnodup : ((columnPatches args.columns).map Prod.fst).Nodup)
    (hex : ∀ p ∈ columnPatches args.columns, db.tasks.any (fun t => t.id == p.1))
    (htasks : (db.tasks.map Task.id).Nodup)
    (hcols : (args.columns.map (fun c => normalizeLegacyStatus (some c.status))).Nodup)
    (hcover : ∀ t ∈ db.tasks, (∀ p ∈ columnPatches args.columns, p.1 ≠ t.id) →
      ∀ c ∈ args.columns, t.status ≠ normalizeLegacyStatus (some c.status)) :
    ∃ db', reorder db args now = some db' ∧
      ∀ c ∈ args.columns,
        ((db'.tasks.filter (fun t =>
            t.status == normalizeLegacyStatus (some c.status))).map (fun t => t.order)).Perm
          ((List.range c.orderedIds.length).map Int.ofNat) := by
  rw [reorder_eq, reorderFold_closed now _ db hnodup hex]
  refine ⟨_, rfl, ?_⟩
  intro c hc
  show (((db.tasks.map (applyOne now (columnPatches args.columns))).filter
      (fun t => t.status == normalizeLegacyStatus (some c.status))).map (fun t => t.order)).Perm _
  have hentryOf : ∀ (x i : Nat), c.orderedIds.get? i = some x →
      (x, i, normalizeLegacyStatus (some c.status)) ∈ columnPatches args.columns := by
    intro x i hi
    unfold columnPatches
    rw [List.mem_flatMap]
    exact ⟨c, hc, by simpa using colEntries_mem _ c.orderedIds 0 i x hi⟩
  have hpred : ∀ t ∈ db.tasks,
      ((applyOne now (columnPatches args.columns) t).status ==
        normalizeLegacyStatus (some c.status)) = c.orderedIds.contains t.id := by
    intro t ht
    cases hf : (columnPatches args.columns).find? (fun p => p.1 == t.id) with
    | none =>
      have hnf := List.find?_eq_none.mp hf
      have hnot : ∀ p ∈ columnPatches args.columns, p.1 ≠ t.id := by
        intro p hp
        have := hnf p hp
        simpa using this
      have hne := hcover t ht hnot c hc
      have happ : applyOne now (columnPatches args.columns) t = t := by
        unfold applyOne
        rw [hf]
      rw [happ]
      have hnmem : t.id ∉ c.orderedIds := by
        intro hmem0
        obtain ⟨i, hi⟩ := List.get?_of_mem hmem0
        exact hnot _ (hentryOf t.id i hi) rfl
      have hncontains : c.orderedIds.contains t.id = false := by simpa using hnmem
      rw [hncontains]
      simp [hne]
    | some q =>
      have happ : applyOne now (columnPatches args.columns) t = patchOf now q t := by
        unfold applyOne
        rw [hf]
      have hq1 : q.1 = t.id := by simpa using List.find?_some hf
      have hqmem := List.mem_of_find?_eq_some hf
      obtain ⟨c1, hc1m, hcq⟩ := List.mem_flatMap.mp hqmem
      obtain ⟨hq22, hq1mem⟩ := colEntries_mem_inv _ c1.orderedIds 0 q hcq
      rw [happ]
      show (q.2.2 == normalizeLegacyStatus (some c.status)) = _
      by_cases hss : normalizeLegacyStatus (some c1.status) =
          normalizeLegacyStatus (some c.status)
      · have hceq : c1 = c := nodup_map_unique _ hcols hc1m hc hss
        subst hceq
        rw [hq22, hss]
        have hmem1 : t.id ∈ c1.orderedIds := hq1 ▸ hq1mem
        have hcontains : c1.orderedIds.contains t.id = true := by simpa using hmem1
        rw [hcontains]
        simp
      · rw [hq22]
        have hb : (normalizeLegacyStatus (some c1.status) ==
            normalizeLegacyStatus (some c.status)) = false := by
          simpa using hss
        rw [hb]
        have hnmem : t.id ∉ c.orderedIds := by
          intro hmem0
          obtain ⟨i, hi⟩ := List.get?_of_mem hmem0
          have hqe : (t.id, i, normalizeLegacyStatus (some c.status)) = q :=
            nodup_map_unique Prod.fst hnodup (hentryOf t.id i hi) hqmem (by simp [hq1])
          have h22 := congrArg (fun r : Nat × Nat × String => r.2.2) hqe
          simp only at h22
          rw [hq22] at h22
          exact hss h22.symm
        have hncontains : c.orderedIds.contains t.id = false := by simpa using hnmem
        rw [hncontains]
  rw [List.filter_map]
  simp only [Function.comp_def]
  rw [List.filter_congr hpred, List.map_map]
  have hord : ∀ t ∈ db.tasks.filter (fun t => c.orderedIds.contains t.id),
      ((fun t => t.order) ∘ applyOne now (columnPatches args.columns)) t =
        ordOf (columnPatches args.columns) t.id := by
    intro t ht
    have hmemids : t.id ∈ c.orderedIds := by
      have := (List.mem_filter.mp ht).2
      simpa using this
    obtain ⟨i, hi⟩ := List.get?_of_mem hmemids
    have hentry := hentryOf t.id i hi
    simp only [Function.comp_def]
    unfold applyOne ordOf
    cases hf : (columnPatches args.columns).find? (fun p => p.1 == t.id) with
    | none =>
      rw [List.find?_eq_none] at hf
      exact absurd (by simp) (hf _ hentry)
    | some q => rfl
  rw [List.map_congr_left hord]
  have hperm : ((db.tasks.filter (fun t => c.orderedIds.contains t.id)).map Task.id).Perm
      c.orderedIds := by
    have hidsnd : c.orderedIds.Nodup := by
      have hsub : List.Sublist
          (colEntries (normalizeLegacyStatus (some c.status)) 0 c.orderedIds)
          (columnPatches args.columns) := by
        unfold columnPatches
        exact sublist_flatMap
          (fun c => colEntries (normalizeLegacyStatus (some c.status)) 0 c.orderedIds) hc
      have := (hsub.map Prod.fst).nodup hnodup
      rwa [colEntries_map_fst] at this
    have hlnd : ((db.tasks.filter (fun t => c.orderedIds.contains t.id)).map Task.id).Nodup :=
      ((List.filter_sublist db.tasks).map Task.id).nodup htasks
    rw [List.perm_ext_iff_of_nodup hlnd hidsnd]
    intro x
    constructor
    · intro hx
      obtain ⟨t, ht, hte⟩ := List.mem_map.mp hx
      have := (List.mem_filter.mp ht).2
      rw [← hte]
      simpa using this
    · intro hx
      obtain ⟨i, hi⟩ := List.get?_of_mem hx
      have hany := hex _ (hentryOf x i hi)
      obtain ⟨t, ht, hte⟩ := List.any_eq_true.mp hany
      have htid : t.id = x := by simpa using hte
      refine List.mem_map.mpr ⟨t, List.mem_filter.mpr ⟨ht, ?_⟩, htid⟩
      have hmem1 : t.id ∈ c.orderedIds := by rw [htid]; exact hx
      simpa using hmem1
  have h1 : (db.tasks.filter (fun t => c.orderedIds.contains t.id)).map
      (fun t => ordOf (columnPatches args.columns) t.id) =
      ((db.tasks.filter (fun t => c.orderedIds.contains t.id)).map Task.id).map
        (ordOf (columnPatches args.columns)) := by
    rw [List.map_map]
    rfl
  have h2 := hperm.map (ordOf (columnPatches args.columns))
  have h3 : c.orderedIds.map (ordOf (columnPatches args.columns)) =
      (List.range c.orderedIds.length).map Int.ofNat := by
    apply ordOf_map_range _ _ (normalizeLegacyStatus (some c.status)) hnodup
    intro i id hget
    exact hentryOf id i hget
  rw [h1]
  exact h3 ▸ h2

/-- Witness for C1: the claim's own instance — one `done` column listing
`[B, A]` across prior columns. -/
theorem claim_C1_reorder_column_rewrite_witness :
    ∃ db', reorder ⟨[⟨0, "A", "backlog", "", 0, 0, 0⟩, ⟨1, "B", "in_progress", "", 0, 0, 0⟩],
        [], [], [], 2⟩
      ⟨[⟨"done", [1, 0]⟩], none, none, none, none, none, none⟩ 5 = some db' ∧
      ∀ c ∈ [(⟨"done", [1, 0]⟩ : Column)], ∀ (i id : Nat), c.orderedIds.get? i = some id →
        ∀ t ∈ db'.tasks, t.id = id →
          t.order = Int.ofNat i ∧ t.status = normalizeLegacyStatus (some c.status) := by
  exact claim_C1_reorder_column_rewrite _ _ 5 (by decide) (by decide)

/-- Witness for C2 (amended) at a fully-covering concrete `reorder`. -/
theorem claim_C2_reorder_orders_contiguous_witness :
    ∃ db', reorder ⟨[⟨0, "A", "done", "", 0, 0, 0⟩, ⟨1, "B", "backlog", "", 0, 0, 0⟩],
        [], [], [], 2⟩
      ⟨[⟨"done", [1, 0]⟩], none, none, none, none, none, none⟩ 5 = some db' ∧
      ∀ c ∈ [(⟨"done", [1, 0]⟩ : Column)],
        ((db'.tasks.filter (fun t =>
            t.status == normalizeLegacyStatus (some c.status))).map (fun t => t.order)).Perm
          ((List.range c.orderedIds.length).map Int.ofNat) := by
  exact claim_C2_reorder_orders_contiguous _ _ 5 (by decide) (by decide) (by decide)
    (by decide) (by decide)

/-! ### Claim C9 -/

namespace Todo

/-- At most one task carries a given id in a list with duplicate-free
ids. -/
theorem countP_id_le_one :
    ∀ (tasks : List Task), (tasks.map Task.id).Nodup →
      ∀ b : String, tasks.countP (fun t => t.id == b) ≤ 1 := by
  intro tasks
  induction tasks with
  | nil => intro _ b; simp [List.countP_nil]
  | cons a t ih =>
    intro h b
    rw [List.map_cons, List.nodup_cons] at h
    rw [List.countP_cons]
    by_cases hab : (a.id == b) = true
    · have h0 : t.countP (fun x => x.id == b) = 0 := by
        rw [List.countP_eq_zero]
        intro x hx hfx
        apply h.1
        have hfxb : x.id = b := by simpa using hfx
        have hfab : a.id = b := by simpa using hab
        rw [hfab, ← hfxb]
        exact List.mem_map_of_mem Task.id hx
      simp [h0, hab]
    · have := ih h.2 b
      simp only [hab, if_false]
      simpa using this

/-- `find?` over the reverse agrees with `find?` when at most one
element satisfies the predicate. -/
theorem find?_reverse_of_countP_le_one (p : Task → Bool) :
    ∀ l : List Task, l.countP p ≤ 1 → l.reverse.find? p = l.find? p := by
  intro l
  induction l with
  | nil => intro _; rfl
  | cons a t ih =>
    intro h
    rw [List.reverse_cons, List.find?_append]
    by_cases hpa : p a = true
    · have hct : t.countP p = 0 := by
        rw [List.countP_cons] at h
        simp only [hpa, if_true] at h
        omega
      have hrtf : t.reverse.find? p = none := by
        rw [List.find?_eq_none]
        intro x hx
        exact List.countP_eq_zero.mp hct x (List.mem_reverse.mp hx)
      rw [hrtf, List.find?_cons_of_pos _ hpa]
      simp [List.find?_cons_of_pos _ hpa]
    · have hct : t.countP p ≤ 1 := by
        rw [List.countP_cons] at h
        simp only [hpa, if_false] at h
        omega
      have h2 : List.find? p (a :: t) = List.find? p t := List.find?_cons_of_neg _ hpa
      have h3 : List.find? p [a] = List.find? p ([] : List Task) :=
        List.find?_cons_of_neg _ hpa
      rw [ih hct, h2, h3]
      simp

/-- The `Map` lookup of the reorder branch agrees with a front-to-back
search when ids are duplicate-free. -/
theorem mapGet_eq_find? (tasks : List Task) (h : (tasks.map Task.id).Nodup)
    (i : String) : mapGet tasks i = tasks.find? (fun t => t.id == i) := by
  unfold mapGet
  exact find?_reverse_of_countP_le_one _ tasks (countP_id_le_one tasks h i)

/-- Erasing an element that fails the predicate does not change
`find?`. -/
theorem find?_erase_of_neg (p : Task → Bool) (a : Task) (hpa : p a = false) :
    ∀ l : List Task, (l.erase a).find? p = l.find? p := by
  intro l
  induction l with
  | nil => rfl
  | cons b t ih =>
    rw [List.erase_cons]
    by_cases hba : (b == a) = true
    · rw [if_pos hba]
      have hbae : b = a := by simpa using hba
      subst hbae
      rw [List.find?_cons_of_neg _ (by simp [hpa])]
    · rw [if_neg hba]
      by_cases hpb : p b = true
      · rw [List.find?_cons_of_pos _ hpb, List.find?_cons_of_pos _ hpb]
      · rw [List.find?_cons_of_neg _ hpb, List.find?_cons_of_neg _ hpb, ih]

/-- Filtering out the unique satisfier of a predicate is erasure. -/
theorem filter_not_of_find? (p : Task → Bool) :
    ∀ (l : List Task) (a : Task), l.countP p ≤ 1 → l.find? p = some a →
      l.filter (fun x => !(p x)) = l.erase a := by
  intro l
  induction l with
  | nil => intro a _ h; cases h
  | cons b t ih =>
    intro a hc hf
    by_cases hpb : p b = true
    · rw [List.find?_cons_of_pos _ hpb] at hf
      cases hf
      rw [List.filter_cons_of_neg (by simp [hpb]), List.erase_cons_head]
      have h0 : t.countP p = 0 := by
        rw [List.countP_cons] at hc
        simp only [hpb, if_true] at hc
        omega
      rw [List.filter_eq_self]
      intro x hx
      have := List.countP_eq_zero.mp h0 x hx
      simpa using this
    · rw [List.find?_cons_of_neg _ hpb] at hf
      have hpa : p a = true := List.find?_some hf
      have hba : ¬(b == a) = true := by
        simp only [beq_iff_eq]
        intro hba
        rw [hba] at hpb
        exact hpb hpa
      rw [List.filter_cons_of_pos (by simp [hpb]), List.erase_cons_tail hba]
      congr 1
      apply ih
      · rw [List.countP_cons] at hc
        simp only [hpb, if_false] at hc
        omega
      · exact hf

/-- The reorder rearrangement — listed known tasks first, unlisted tasks
appended — is a permutation of the original list. -/
theorem reorder_perm :
    ∀ (ids : List String) (tasks : List Task),
      (tasks.map Task.id).Nodup → ids.Nodup →
      (ids.filterMap (fun i => tasks.find? (fun t => t.id == i)) ++
        tasks.filter (fun t => !(ids.contains t.id))).Perm tasks := by
  intro ids
  induction ids with
  | nil =>
    intro tasks _ _
    simp
  | cons i rest ih =>
    intro tasks htn hin
    rw [List.filterMap_cons]
    have hrestnd : rest.Nodup := (List.nodup_cons.mp hin).2
    have hinotin : i ∉ rest := (List.nodup_cons.mp hin).1
    cases hf : tasks.find? (fun t => t.id == i) with
    | none =>
      show (List.filterMap (fun j => tasks.find? (fun t => t.id == j)) rest ++
        tasks.filter (fun t => !((i :: rest).contains t.id))).Perm tasks
      have hnone : ∀ t ∈ tasks, (t.id == i) = false := by
        intro t ht
        have := List.find?_eq_none.mp hf t ht
        simpa using this
      have hfilter : tasks.filter (fun t => !((i :: rest).contains t.id)) =
          tasks.filter (fun t => !(rest.contains t.id)) := by
        apply List.filter_congr
        intro t ht
        simp only [List.contains_cons, hnone t ht, Bool.false_or]
      rw [hfilter]
      exact ih tasks htn hrestnd
    | some t0 =>
      have ht0mem := List.mem_of_find?_eq_some hf
      have ht0id : t0.id = i := by simpa using List.find?_some hf
      have htasks_perm : tasks.Perm (t0 :: tasks.erase t0) := List.perm_cons_erase ht0mem
      refine List.Perm.trans ?_ htasks_perm.symm
      show (t0 :: (rest.filterMap (fun j => tasks.find? (fun t => t.id == j)) ++
        tasks.filter (fun t => !((i :: rest).contains t.id)))).Perm _
      apply List.Perm.cons
      have hcount := countP_id_le_one tasks htn
      have hfm : rest.filterMap (fun j => tasks.find? (fun t => t.id == j)) =
          rest.filterMap (fun j => (tasks.erase t0).find? (fun t => t.id == j)) := by
        apply List.filterMap_congr
        intro j hj
        have hij : i ≠ j := fun he => hinotin (he ▸ hj)
        have hcond : (t0.id == j) = false := by
          simp only [beq_eq_false_iff_ne, ne_eq, ht0id]
          exact hij
        exact (find?_erase_of_neg _ t0 hcond tasks).symm
      have h1 : tasks.filter (fun t => !(t.id == i)) = tasks.erase t0 :=
        filter_not_of_find? _ tasks t0 (hcount i) hf
      have hflt : tasks.filter (fun t => !((i :: rest).contains t.id)) =
          (tasks.erase t0).filter (fun t => !(rest.contains t.id)) := by
        rw [← h1, List.filter_filter]
        apply List.filter_congr
        intro t _
        by_cases hdi : t.id = i <;> simp [hdi, List.contains_cons, Bool.and_comm]
      rw [hfm, hflt]
      exact ih (tasks.erase t0)
        (((List.erase_sublist t0 tasks).map Task.id).nodup htn) hrestnd

end Todo

/-- Claim C9: on a state with pairwise-distinct task ids, the reducer's
`reorder` action with a non-empty, duplicate-free `orderedIds` list
matching at least one task rearranges the task list into listed known
tasks (in list order, unknown ids silently skipped) followed by every
unlisted task in its original relative order; the result is a
permutation of the original tasks, no task record is modified, and the
filter field is untouched. -/
theorem claim_C9_reducer_reorder_permutation (nowMs : Int) (state : Todo.State)
    (orderedIds : List String)
    (htn : (state.tasks.map Todo.Task.id).Nodup)
    (hne : orderedIds ≠ [])
    (hnd : orderedIds.Nodup)
    (hmatch : ∃ i ∈ orderedIds, ∃ t ∈ state.tasks, t.id = i) :
    (Todo.reducer nowMs state (.reorder orderedIds)).tasks =
      orderedIds.filterMap (fun i => state.tasks.find? (fun t => t.id == i)) ++
        state.tasks.filter (fun t => !(orderedIds.contains t.id)) ∧
    (Todo.reducer nowMs state (.reorder orderedIds)).tasks.Perm state.tasks ∧
    (Todo.reducer nowMs state (.reorder orderedIds)).filter = state.filter := by
  have hmg : ∀ i : String, Todo.mapGet state.tasks i =
      state.tasks.find? (fun t => t.id == i) :=
    Todo.mapGet_eq_find? state.tasks htn
  have hisEmpty : orderedIds.isEmpty = false := by
    rw [List.isEmpty_eq_false]
    exact hne
  have hpickne : orderedIds.filterMap (fun i => Todo.mapGet state.tasks i) ≠ [] := by
    obtain ⟨i, hi, t, ht, hti⟩ := hmatch
    intro hnil
    rw [List.filterMap_eq_nil_iff] at hnil
    have := hnil i hi
    rw [hmg i, List.find?_eq_none] at this
    exact absurd (by simp [hti]) (this t ht)
  have hpickEmpty : (orderedIds.filterMap (fun i => Todo.mapGet state.tasks i)).isEmpty
      = false := by
    rw [List.isEmpty_eq_false]
    exact hpickne
  have hused : state.tasks.filter (fun t =>
      !((orderedIds.filter (fun i => (Todo.mapGet state.tasks i).isSome)).contains t.id)) =
      state.tasks.filter (fun t => !(orderedIds.contains t.id)) := by
    apply List.filter_congr
    intro t ht
    have hiff : t.id ∈ orderedIds.filter (fun i => (Todo.mapGet state.tasks i).isSome) ↔
        t.id ∈ orderedIds := by
      constructor
      · intro h
        exact (List.mem_filter.mp h).1
      · intro h
        refine List.mem_filter.mpr ⟨h, ?_⟩
        rw [hmg t.id]
        rw [List.find?_isSome]
        exact ⟨t, ht, by simp⟩
    by_cases hmem : t.id ∈ orderedIds
    · have h2 : t.id ∈ orderedIds.filter (fun i => (Todo.mapGet state.tasks i).isSome) :=
        hiff.mpr hmem
      have e1 : (orderedIds.filter (fun i => (Todo.mapGet state.tasks i).isSome)).contains
          t.id = true := by simpa using h2
      have e2 : orderedIds.contains t.id = true := by simpa using hmem
      rw [e1, e2]
    · have h2 : t.id ∉ orderedIds.filter (fun i => (Todo.mapGet state.tasks i).isSome) :=
        fun h => hmem (hiff.mp h)
      have e1 : (orderedIds.filter (fun i => (Todo.mapGet state.tasks i).isSome)).contains
          t.id = false := by simpa using h2
      have e2 : orderedIds.contains t.id = false := by simpa using hmem
      rw [e1, e2]
  have heq : (Todo.reducer nowMs state (.reorder orderedIds)).tasks =
      orderedIds.filterMap (fun i => state.tasks.find? (fun t => t.id == i)) ++
        state.tasks.filter (fun t => !(orderedIds.contains t.id)) := by
    show (Todo.reducer nowMs state (.reorder orderedIds)).tasks = _
    simp only [Todo.reducer]
    rw [hisEmpty]
    simp only [Bool.false_eq_true, if_false]
    rw [hpickEmpty]
    simp only [Bool.false_eq_true, if_false]
    show (orderedIds.filterMap (fun i => Todo.mapGet state.tasks i)) ++ _ = _
    rw [hused]
    congr 1
    apply List.filterMap_congr
    intro i _
    rw [hmg i]
  refine ⟨heq, ?_, ?_⟩
  · rw [heq]
    exact Todo.reorder_perm orderedIds state.tasks htn hnd
  · simp only [Todo.reducer]
    rw [hisEmpty]
    simp only [Bool.false_eq_true, if_false]
    rw [hpickEmpty]
    simp only [Bool.false_eq_true, if_false]

/-- Witness for C9 at a concrete three-task state: `orderedIds`
`["t-2", "zzz", "t-1"]` picks the known tasks first and appends the
unlisted one. -/
theorem claim_C9_reducer_reorder_permutation_witness :
    (Todo.reducer 0 ⟨[⟨"t-1", "a", "", .backlog, 0, 0⟩, ⟨"t-2", "b", "", .done, 0, 0⟩,
        ⟨"t-3", "c", "", .in_progress, 0, 0⟩], .all⟩
      (.reorder ["t-2", "zzz", "t-1"])).tasks =
      [⟨"t-2", "b", "", .done, 0, 0⟩, ⟨"t-1", "a", "", .backlog, 0, 0⟩,
       ⟨"t-3", "c", "", .in_progress, 0, 0⟩] := by
  have h := claim_C9_reducer_reorder_permutation 0
    ⟨[⟨"t-1", "a", "", .backlog, 0, 0⟩, ⟨"t-2", "b", "", .done, 0, 0⟩,
      ⟨"t-3", "c", "", .in_progress, 0, 0⟩], .all⟩
    ["t-2", "zzz", "t-1"] (by decide) (by decide) (by decide)
    ⟨"t-2", by decide, ⟨"t-2", "b", "", .done, 0, 0⟩, by decide, rfl⟩
  rw [h.1]
  decide

/-! ### Claim C8 -/

/-- Claim C8: the proxy handler's status taxonomy.  A non-POST method
yields 405 with no upstream call; an absent (or empty, both falsy) API
token yields 400 with no upstream call; an exception at any stage —
body parsing, upload, a poll, or the transcription fetch — yields 500;
a poll loop that ends in state `failed` yields 502; a poll loop that
exhausts its time budget without reaching a terminal state yields 504;
and a completed transcription yields 200 with both `text` and `task_id`
in the body. -/
theorem claim_C8_stt_status_taxonomy
    (method : String) (token : Option String) (parse : Stt.ParseOutcome)
    (upload : Stt.UploadOutcome) (polls : Nat → Stt.PollOutcome) (fuel : Nat)
    (trans : Stt.TransOutcome) :
    (method ≠ "POST" →
      Stt.handler method token parse upload polls fuel trans =
        ⟨405, Stt.errBody "Method not allowed", 0⟩) ∧
    (method = "POST" → token = none ∨ token = some "" →
      Stt.handler method token parse upload polls fuel trans =
        ⟨400, Stt.errBody "Missing SPEECHCORE_API_TOKEN in environment", 0⟩) ∧
    (∀ tok msg, method = "POST" → token = some tok → tok ≠ "" → parse = .throws msg →
      Stt.handler method token parse upload polls fuel trans =
        ⟨500, Stt.errBody msg, 0⟩) ∧
    (∀ tok msg, method = "POST" → token = some tok → tok ≠ "" → parse = .file →
      upload = .throws msg →
      Stt.handler method token parse upload polls fuel trans =
        ⟨500, Stt.errBody msg, 1⟩) ∧
    (∀ tok msg, method = "POST" → token = some tok → tok ≠ "" → parse = .file →
      ∀ tid, upload = .okTask tid → fuel ≥ 1 → polls 0 = .throws msg →
      Stt.handler method token parse upload polls fuel trans =
        ⟨500, Stt.errBody msg, 2⟩) ∧
    (∀ tok msg calls, method = "POST" → token = some tok → tok ≠ "" → parse = .file →
      ∀ tid, upload = .okTask tid →
      Stt.pollLoop polls fuel 0 "pending" 1 = .finished "completed" calls →
      trans = .throws msg →
      Stt.handler method token parse upload polls fuel trans =
        ⟨500, Stt.errBody msg, calls + 1⟩) ∧
    (∀ tok calls, method = "POST" → token = some tok → tok ≠ "" → parse = .file →
      ∀ tid, upload = .okTask tid →
      Stt.pollLoop polls fuel 0 "pending" 1 = .finished "failed" calls →
      Stt.handler method token parse upload polls fuel trans =
        ⟨502, ⟨none, some tid, some "SpeechCore: transcription failed", some "failed"⟩,
          calls⟩) ∧
    (∀ tok status calls, method = "POST" → token = some tok → tok ≠ "" → parse = .file →
      ∀ tid, upload = .okTask tid →
      Stt.pollLoop polls fuel 0 "pending" 1 = .finished status calls →
      status ≠ "completed" → status ≠ "failed" →
      Stt.handler method token parse upload polls fuel trans =
        ⟨504, ⟨none, some tid, some "SpeechCore: transcription timeout", some "timeout"⟩,
          calls⟩) ∧
    (∀ tok segments fallbackFields calls,
      method = "POST" → token = some tok → tok ≠ "" → parse = .file →
      ∀ tid, upload = .okTask tid →
      Stt.pollLoop polls fuel 0 "pending" 1 = .finished "completed" calls →
      trans = .okBody segments fallbackFields →
      Stt.handler method token parse upload polls fuel trans =
        ⟨200, ⟨some (Stt.extractText segments fallbackFields), some tid, none, none⟩,
          calls + 1⟩) := by
  refine ⟨?_, ?_, ?_, ?_, ?_, ?_, ?_, ?_, ?_⟩
  · intro h
    simp [Stt.handler, h]
  · intro hm ht
    subst hm
    rcases ht with h | h <;> subst h <;> simp [Stt.handler]
  · intro tok msg hm ht htok hp
    subst hm; subst ht; subst hp
    simp [Stt.handler, htok]
  · intro tok msg hm ht htok hp hu
    subst hm; subst ht; subst hp; subst hu
    simp [Stt.handler, htok]
  · intro tok msg hm ht htok hp tid hu hfuel hpoll
    subst hm; subst ht; subst hp; subst hu
    obtain ⟨fuel1, rfl⟩ : ∃ f, fuel = f + 1 := ⟨fuel - 1, by omega⟩
    have hloop : Stt.pollLoop polls (fuel1 + 1) 0 "pending" 1 =
        .early ⟨500, Stt.errBody msg, 2⟩ := by
      unfold Stt.pollLoop
      rw [hpoll]
    simp [Stt.handler, htok, hloop]
  · intro tok msg calls hm ht htok hp tid hu hpoll htr
    subst hm; subst ht; subst hp; subst hu; subst htr
    simp [Stt.handler, htok, hpoll]
  · intro tok calls hm ht htok hp tid hu hpoll
    subst hm; subst ht; subst hp; subst hu
    simp [Stt.handler, htok, hpoll]
  · intro tok status calls hm ht htok hp tid hu hpoll hs1 hs2
    subst hm; subst ht; subst hp; subst hu
    simp [Stt.handler, htok, hpoll, hs1, hs2]
  · intro tok segments fallbackFields calls hm ht htok hp tid hu hpoll htr
    subst hm; subst ht; subst hp; subst hu; subst htr
    simp [Stt.handler, htok, hpoll]

/-- Witness for C8: concrete requests exercising the 405, 400, 504 and
200 paths. -/
theorem claim_C8_stt_status_taxonomy_witness :
    Stt.handler "GET" (some "tok") .file (.okTask "id1")
        (fun _ => .okStatus (some "completed")) 1 (.okBody ["hello"] []) =
      ⟨405, Stt.errBody "Method not allowed", 0⟩ ∧
    Stt.handler "POST" none .file (.okTask "id1")
        (fun _ => .okStatus (some "completed")) 1 (.okBody ["hello"] []) =
      ⟨400, Stt.errBody "Missing SPEECHCORE_API_TOKEN in environment", 0⟩ ∧
    Stt.handler "POST" (some "tok") .file (.okTask "id1")
        (fun _ => .okStatus (some "pending")) 0 (.okBody ["hello"] []) =
      ⟨504, ⟨none, some "id1", some "SpeechCore: transcription timeout", some "timeout"⟩,
        1⟩ ∧
    Stt.handler "POST" (some "tok") .file (.okTask "id1")
        (fun _ => .okStatus (some "completed")) 1 (.okBody ["hello"] []) =
      ⟨200, ⟨some "hello", some "id1", none, none⟩, 3⟩ := by
  have h1 := (claim_C8_stt_status_taxonomy "GET" (some "tok") .file (.okTask "id1")
    (fun _ => .okStatus (some "completed")) 1 (.okBody ["hello"] [])).1 (by decide)
  have h2 := (claim_C8_stt_status_taxonomy "POST" none .file (.okTask "id1")
    (fun _ => .okStatus (some "completed")) 1 (.okBody ["hello"] [])).2.1 rfl (Or.inl rfl)
  have h3 := (claim_C8_stt_status_taxonomy "POST" (some "tok") .file (.okTask "id1")
    (fun _ => .okStatus (some "pending")) 0 (.okBody ["hello"] [])).2.2.2.2.2.2.2.1
    "tok" "pending" 1 rfl rfl (by decide) rfl "id1" rfl rfl (by decide) (by decide)
  have h4 := (claim_C8_stt_status_taxonomy "POST" (some "tok") .file (.okTask "id1")
    (fun _ => .okStatus (some "completed")) 1 (.okBody ["hello"] [])).2.2.2.2.2.2.2.2
    "tok" ["hello"] [] 2 rfl rfl (by decide) rfl "id1" rfl rfl rfl
  refine ⟨h1, h2, h3, ?_⟩
  rw [h4]
  decide

/-! ### Claim C10 -/

namespace Convex

/-- A well-formed database grows trivially from itself. -/
theorem growsFrom_rfl (db : DB) (h : Wf db) : GrowsFrom db db :=
  ⟨h, rfl, ⟨[], by simp, by simp⟩, ⟨[], by simp, by simp⟩, rfl, Nat.le_refl _⟩

/-- `insertEvent` preserves the seeding-phase invariant. -/
theorem growsFrom_insertEvent (db0 db : DB) (tid ty ac : String) (pl : EventPayload)
    (ca : Int) (h : GrowsFrom db0 db) :
    GrowsFrom db0 (insertEvent db tid ty ac pl ca) := by
  obtain ⟨⟨w1, w2, w3, w4⟩, htk, ⟨ms, hms, hms2⟩, ⟨es, hes, hes2⟩, hap, hnx⟩ := h
  refine ⟨⟨?_, ?_, ?_, ?_⟩, htk, ⟨ms, hms, hms2⟩,
    ⟨es ++ [⟨db.nextId, tid, ty, ac, pl, ca⟩], ?_, ?_⟩, hap, ?_⟩
  · intro t ht
    exact Nat.lt_succ_of_lt (w1 t ht)
  · intro m hm
    exact Nat.lt_succ_of_lt (w2 m hm)
  · intro e he
    rcases List.mem_append.mp he with h1 | h1
    · exact Nat.lt_succ_of_lt (w3 e h1)
    · simp only [List.mem_singleton] at h1
      subst h1
      exact Nat.lt_succ_self _
  · intro r hr
    exact Nat.lt_succ_of_lt (w4 r hr)
  · show db.task_events ++ _ = _
    rw [hes, List.append_assoc]
  · intro e he
    rcases List.mem_append.mp he with h1 | h1
    · exact hes2 e h1
    · simp only [List.mem_singleton] at h1
      subst h1
      exact hnx
  · exact Nat.le_trans hnx (Nat.le_succ _)

/-- One scripted-message insertion preserves the invariant. -/
theorem growsFrom_insertDemoMessage (db0 : DB) (b : Int) (sId : String)
    (acc : DB × Int) (m : DemoMessage) (h : GrowsFrom db0 acc.1) :
    GrowsFrom db0 (insertDemoMessage b sId acc m).1 := by
  obtain ⟨⟨w1, w2, w3, w4⟩, htk, ⟨ms, hms, hms2⟩, ⟨es, hes, hes2⟩, hap, hnx⟩ := h
  have hdbM : GrowsFrom db0
      ({ acc.1 with
         messages := acc.1.messages ++
           [⟨acc.1.nextId, sId, m.text, m.author, b + minutes m.offset⟩],
         nextId := acc.1.nextId + 1 }) := by
    refine ⟨⟨?_, ?_, ?_, ?_⟩, htk,
      ⟨ms ++ [⟨acc.1.nextId, sId, m.text, m.author, b + minutes m.offset⟩], ?_, ?_⟩,
      ⟨es, hes, hes2⟩, hap, ?_⟩
    · intro t ht
      exact Nat.lt_succ_of_lt (w1 t ht)
    · intro x hx
      rcases List.mem_append.mp hx with h1 | h1
      · exact Nat.lt_succ_of_lt (w2 x h1)
      · simp only [List.mem_singleton] at h1
        subst h1
        exact Nat.lt_succ_self _
    · intro e he
      exact Nat.lt_succ_of_lt (w3 e he)
    · intro r hr
      exact Nat.lt_succ_of_lt (w4 r hr)
    · show acc.1.messages ++ _ = _
      rw [hms, List.append_assoc]
    · intro x hx
      rcases List.mem_append.mp hx with h1 | h1
      · exact hms2 x h1
      · simp only [List.mem_singleton] at h1
        subst h1
        exact hnx
    · exact Nat.le_trans hnx (Nat.le_succ _)
  exact growsFrom_insertEvent db0 _ sId "message_sent" "demo-user"
    ⟨none, none, some (buildPreview m.text), none, none⟩ (b + minutes m.offset) hdbM

/-- The scripted-message fold preserves the invariant. -/
theorem growsFrom_foldl (db0 : DB) (b : Int) (sId : String) :
    ∀ (msgs : List DemoMessage) (acc : DB × Int), GrowsFrom db0 acc.1 →
      GrowsFrom db0 (msgs.foldl (insertDemoMessage b sId) acc).1 := by
  intro msgs
  induction msgs with
  | nil => intro acc h; exact h
  | cons m rest ih =>
    intro acc h
    rw [List.foldl_cons]
    exact ih _ (growsFrom_insertDemoMessage db0 b sId acc m h)

/-- The optional status-event step preserves the invariant. -/
theorem growsFrom_demoStatusStep (db0 : DB) (b : Int) (sId : String) (task : DemoTask)
    (ca : Int) (db : DB) (h : GrowsFrom db0 db) :
    GrowsFrom db0 (demoStatusStep b sId task ca db).1 := by
  unfold demoStatusStep
  rcases task.statusFrom with _ | sf <;> rcases task.statusOffset with _ | so <;>
    first
      | exact h
      | exact growsFrom_insertEvent db0 db sId "task_status_changed" "demo-user"
          ⟨some sf, some task.status, none, none, none⟩ (b + minutes so) h

/-- The optional description-event step preserves the invariant. -/
theorem growsFrom_demoDescriptionStep (db0 : DB) (b : Int) (sId : String)
    (task : DemoTask) (acc : DB × Int) (h : GrowsFrom db0 acc.1) :
    GrowsFrom db0 (demoDescriptionStep b sId task acc).1 := by
  unfold demoDescriptionStep
  rcases task.description with _ | d <;> rcases task.descriptionOffset with _ | dOff
  · exact h
  · exact h
  · exact h
  · show GrowsFrom db0
      ((if d ≠ "" then
          (insertEvent acc.1 sId "task_description_updated" "demo-user"
            ⟨none, none, some (buildPreview d), none, none⟩ (b + minutes dOff),
           max acc.2 (b + minutes dOff))
        else acc)).1
    split_ifs with hd
    · exact growsFrom_insertEvent db0 acc.1 sId "task_description_updated" "demo-user"
        ⟨none, none, some (buildPreview d), none, none⟩ (b + minutes dOff) h
    · exact h

/-- One seed-loop iteration succeeds on a well-formed database and only
appends fresh rows. -/
theorem insertDemoTask_spec (b : Int) (tk : DemoTask) (db : DB) (hwf : Wf db) :
    ∃ db', insertDemoTask b db tk = some db' ∧ Wf db' ∧ ExtendsFrom db.nextId db db' := by
  obtain ⟨w1, w2, w3, w4⟩ := hwf
  set createdAt := b + minutes tk.createdOffset with hca
  set T0 : Task := ⟨db.nextId, tk.title, tk.status, tk.description.getD "", tk.order,
    createdAt, createdAt⟩ with hT0
  set dbA : DB := { db with tasks := db.tasks ++ [T0], nextId := db.nextId + 1 } with hdbA
  have hwfA : Wf dbA := by
    refine ⟨?_, ?_, ?_, ?_⟩
    · intro t ht
      rcases List.mem_append.mp ht with h1 | h1
      · exact Nat.lt_succ_of_lt (w1 t h1)
      · simp only [List.mem_singleton] at h1
        subst h1
        exact Nat.lt_succ_self _
    · intro m hm
      exact Nat.lt_succ_of_lt (w2 m hm)
    · intro e he
      exact Nat.lt_succ_of_lt (w3 e he)
    · intro r hr
      exact Nat.lt_succ_of_lt (w4 r hr)
  set dbB := insertEvent dbA (toString db.nextId) "task_created" "demo-user"
    emptyPayload createdAt with hdbB
  have hnB : dbB.nextId = db.nextId + 2 := rfl
  have hwfB : Wf dbB := by
    obtain ⟨a1, a2, a3, a4⟩ := hwfA
    refine ⟨?_, ?_, ?_, ?_⟩
    · intro t ht
      exact Nat.lt_succ_of_lt (a1 t ht)
    · intro m hm
      exact Nat.lt_succ_of_lt (a2 m hm)
    · intro e he
      rcases List.mem_append.mp he with h1 | h1
      · exact Nat.lt_succ_of_lt (a3 e h1)
      · simp only [List.mem_singleton] at h1
        subst h1
        exact Nat.lt_succ_self _
    · intro r hr
      exact Nat.lt_succ_of_lt (a4 r hr)
  have hgrow : GrowsFrom dbB
      ((tk.messages.foldl (insertDemoMessage b (toString db.nextId))
        (demoDescriptionStep b (toString db.nextId) tk
          (demoStatusStep b (toString db.nextId) tk createdAt dbB))).1) :=
    growsFrom_foldl dbB b (toString db.nextId) tk.messages _
      (growsFrom_demoDescriptionStep dbB b (toString db.nextId) tk _
        (growsFrom_demoStatusStep dbB b (toString db.nextId) tk createdAt dbB
          (growsFrom_rfl dbB hwfB)))
  set stepM := tk.messages.foldl (insertDemoMessage b (toString db.nextId))
    (demoDescriptionStep b (toString db.nextId) tk
      (demoStatusStep b (toString db.nextId) tk createdAt dbB)) with hstepM
  obtain ⟨⟨g1, g2, g3, g4⟩, gtk, ⟨ms, hms, hms2⟩, ⟨es, hes, hes2⟩, gap, gnx⟩ := hgrow
  have htasksM : stepM.1.tasks = db.tasks ++ [T0] := gtk
  have hmsM : stepM.1.messages = db.messages ++ ms := hms
  have hesM : stepM.1.task_events =
      db.task_events ++ (⟨db.nextId + 1, toString db.nextId, "task_created", "demo-user",
        emptyPayload, createdAt⟩ :: es) := by
    rw [hes]
    show (db.task_events ++ _) ++ es = _
    rw [List.append_assoc]
    rfl
  have hExt : ∀ db2 : DB, db2.tasks = db.tasks ++ [{ T0 with updatedAt := stepM.2 }] ∨
      db2.tasks = db.tasks ++ [T0] →
      db2.messages = stepM.1.messages → db2.task_events = stepM.1.task_events →
      db2.app_state = stepM.1.app_state → db2.nextId = stepM.1.nextId →
      ExtendsFrom db.nextId db db2 := by
    intro db2 htk2 hm2 he2 ha2 hn2
    refine ⟨?_, ?_, ?_, ?_, ?_⟩
    · rcases htk2 with h1 | h1
      · exact ⟨[{ T0 with updatedAt := stepM.2 }], h1, by
          intro t ht
          simp only [List.mem_singleton] at ht
          subst ht
          exact Nat.le_refl _⟩
      · exact ⟨[T0], h1, by
          intro t ht
          simp only [List.mem_singleton] at ht
          subst ht
          exact Nat.le_refl _⟩
    · refine ⟨ms, by rw [hm2, hmsM], ?_⟩
      intro m hm
      have := hms2 m hm
      show db.nextId ≤ m.id
      omega
    · refine ⟨⟨db.nextId + 1, toString db.nextId, "task_created", "demo-user",
        emptyPayload, createdAt⟩ :: es, by rw [he2, hesM], ?_⟩
      intro e he
      rcases List.mem_cons.mp he with h1 | h1
      · subst h1
        exact Nat.le_succ_of_le (Nat.le_refl _)
      · have := hes2 e h1
        show db.nextId ≤ e.id
        omega
    · rw [ha2, gap]
      rfl
    · rw [hn2]
      show db.nextId ≤ stepM.1.nextId
      omega
  show ∃ db', (if stepM.2 ≠ createdAt then
        patchTask stepM.1 db.nextId (fun t => { t with updatedAt := stepM.2 })
      else some stepM.1) = some db' ∧ Wf db' ∧ ExtendsFrom db.nextId db db'
  by_cases hupd : stepM.2 ≠ createdAt
  · rw [if_pos hupd]
    have hany : stepM.1.tasks.any (fun t => t.id == db.nextId) = true := by
      rw [htasksM]
      rw [List.any_eq_true]
      exact ⟨T0, by simp, by simp [hT0]⟩
    unfold patchTask
    rw [if_pos hany]
    refine ⟨_, rfl, ?_, ?_⟩
    · refine ⟨?_, ?_, ?_, ?_⟩
      · intro t ht
        simp only [List.mem_map] at ht
        obtain ⟨t1, ht1, ht1e⟩ := ht
        have hid : t.id = t1.id := by
          rw [← ht1e]
          by_cases h1 : t1.id = db.nextId <;> simp [h1]
        rw [hid]
        exact g1 t1 ht1
      · exact g2
      · exact g3
      · exact g4
    · apply hExt
      · left
        show stepM.1.tasks.map _ = _
        rw [htasksM, List.map_append]
        congr 1
        · have hmapid : db.tasks.map (fun t =>
              if t.id = db.nextId then { t with updatedAt := stepM.2 } else t) =
              db.tasks.map (fun t => t) :=
            List.map_congr_left (fun t ht => by
              have := w1 t ht
              rw [if_neg (by omega)])
          rw [hmapid, List.map_id']
        · show [if T0.id = db.nextId then _ else T0] = _
          rw [if_pos rfl]
      · rfl
      · rfl
      · rfl
      · rfl
  · rw [if_neg hupd]
    refine ⟨_, rfl, ⟨g1, g2, g3, g4⟩, ?_⟩
    apply hExt
    · right
      exact htasksM
    · rfl
    · rfl
    · rfl
    · rfl

end Convex

/-- `ExtendsFrom` is reflexive. -/
theorem extendsFrom_rfl (n : Nat) (db : DB) : ExtendsFrom n db db :=
  ⟨⟨[], by simp, by simp⟩, ⟨[], by simp, by simp⟩, ⟨[], by simp, by simp⟩, rfl,
    Nat.le_refl _⟩

/-- `ExtendsFrom` composes. -/
theorem extendsFrom_trans {n : Nat} {db db1 db2 : DB} (hn : n ≤ db.nextId)
    (h1 : ExtendsFrom n db db1) (h2 : ExtendsFrom db1.nextId db1 db2) :
    ExtendsFrom n db db2 := by
  obtain ⟨⟨ts1, ht1, ht1b⟩, ⟨ms1, hm1, hm1b⟩, ⟨es1, he1, he1b⟩, ha1, hx1⟩ := h1
  obtain ⟨⟨ts2, ht2, ht2b⟩, ⟨ms2, hm2, hm2b⟩, ⟨es2, he2, he2b⟩, ha2, hx2⟩ := h2
  refine ⟨⟨ts1 ++ ts2, by rw [ht2, ht1, List.append_assoc], ?_⟩,
          ⟨ms1 ++ ms2, by rw [hm2, hm1, List.append_assoc], ?_⟩,
          ⟨es1 ++ es2, by rw [he2, he1, List.append_assoc], ?_⟩,
          by rw [ha2, ha1], Nat.le_trans hx1 hx2⟩
  · intro t ht
    rcases List.mem_append.mp ht with h | h
    · exact ht1b t h
    · exact Nat.le_trans (Nat.le_trans hn hx1) (ht2b t h)
  · intro m hm
    rcases List.mem_append.mp hm with h | h
    · exact hm1b m h
    · exact Nat.le_trans (Nat.le_trans hn hx1) (hm2b m h)
  · intro e he
    rcases List.mem_append.mp he with h | h
    · exact he1b e h
    · exact Nat.le_trans (Nat.le_trans hn hx1) (he2b e h)

/-- The whole template fold succeeds on a well-formed database and only
appends fresh rows. -/
theorem seedFold_spec (b : Int) :
    ∀ (tks : List DemoTask) (db : DB), Wf db →
      ∃ db', tks.foldlM (insertDemoTask b) db = some db' ∧ Wf db' ∧
        ExtendsFrom db.nextId db db' := by
  intro tks
  induction tks with
  | nil =>
    intro db h
    exact ⟨db, rfl, h, extendsFrom_rfl _ db⟩
  | cons tk rest ih =>
    intro db h
    obtain ⟨db1, hdb1, hw1, he1⟩ := insertDemoTask_spec b tk db h
    obtain ⟨db2, hdb2, hw2, he2⟩ := ih db1 hw1
    refine ⟨db2, ?_, hw2, extendsFrom_trans (Nat.le_refl _) he1 he2⟩
    rw [List.foldlM_cons, hdb1]
    simpa using hdb2

/-- Claim C10: when the `demo_seeded` flag is absent or false,
`seedDemoData` deletes nothing — every pre-existing task, message and
event row survives as a prefix of its table, the demo rows being
appended on top; the bulk delete runs only when the flag was already
true at the start of the call, in which case every row of the resulting
task/message/event tables is newly allocated. -/
theorem claim_C10_seed_no_delete_unless_flag (db : DB) (language : DemoLanguage)
    (now : Int) (hwf : Wf db) :
    ∃ db', seedDemoData db language now = some db' ∧
      ((match db.app_state.find? (fun r => r.key == DEMO_SEED_KEY) with
        | some r => r.value
        | none => false) = false →
        (∃ ts, db'.tasks = db.tasks ++ ts) ∧ (∃ ms, db'.messages = db.messages ++ ms) ∧
        (∃ es, db'.task_events = db.task_events ++ es)) ∧
      ((match db.app_state.find? (fun r => r.key == DEMO_SEED_KEY) with
        | some r => r.value
        | none => false) = true →
        (∀ t ∈ db'.tasks, db.nextId ≤ t.id) ∧ (∀ m ∈ db'.messages, db.nextId ≤ m.id) ∧
        (∀ e ∈ db'.task_events, db.nextId ≤ e.id)) := by
  obtain ⟨w1, w2, w3, w4⟩ := hwf
  cases hfind : db.app_state.find? (fun r => r.key == DEMO_SEED_KEY) with
  | none =>
    have hsd : seedDemoData db language now =
        ((demoSeedTemplates language).foldlM (insertDemoTask (now - minutes 85)) db).bind
          (fun db1 => some { db1 with
            app_state := db1.app_state ++ [⟨db1.nextId, DEMO_SEED_KEY, true, now, now⟩],
            nextId := db1.nextId + 1 }) := by
      unfold seedDemoData
      rw [hfind]
      rfl
    obtain ⟨db1, hdb1, hw1, ⟨ts, hts, _⟩, ⟨ms, hms, _⟩, ⟨es, hes, _⟩, hap, hnx⟩ :=
      seedFold_spec (now - minutes 85) (demoSeedTemplates language) db ⟨w1, w2, w3, w4⟩
    refine ⟨_, by rw [hsd, hdb1]; rfl, ?_, ?_⟩
    · intro _
      exact ⟨⟨ts, hts⟩, ⟨ms, hms⟩, ⟨es, hes⟩⟩
    · intro h
      exact Bool.noConfusion h
  | some r =>
    obtain ⟨rid, rkey, rval, rca, rua⟩ := r
    cases rval with
    | true =>
      have hsd : seedDemoData db language now =
          ((demoSeedTemplates language).foldlM (insertDemoTask (now - minutes 85))
            { db with tasks := [], messages := [], task_events := [] }).bind
            (fun db1 => patchAppState db1 rid
              (fun s => { s with value := true, updatedAt := now })) := by
        unfold seedDemoData
        rw [hfind]
        rfl
      have hwf0 : Wf { db with tasks := [], messages := [], task_events := [] } := by
        refine ⟨?_, ?_, ?_, w4⟩ <;> intro x hx <;> cases hx
      obtain ⟨db1, hdb1, hw1, ⟨ts, hts, htsb⟩, ⟨ms, hms, hmsb⟩, ⟨es, hes, hesb⟩, hap, hnx⟩ :=
        seedFold_spec (now - minutes 85) (demoSeedTemplates language)
          { db with tasks := [], messages := [], task_events := [] } hwf0
      have hany : db1.app_state.any (fun x => x.id == rid) = true := by
        rw [hap]
        rw [List.any_eq_true]
        exact ⟨_, List.mem_of_find?_eq_some hfind, by simp⟩
      have hpatch : patchAppState db1 rid
          (fun s => { s with value := true, updatedAt := now }) =
          some { db1 with app_state := db1.app_state.map (fun s =>
            if s.id = rid then { s with value := true, updatedAt := now } else s) } := by
        unfold patchAppState
        rw [if_pos hany]
      refine ⟨_, by rw [hsd, hdb1]; exact hpatch, ?_, ?_⟩
      · intro h
        exact Bool.noConfusion h
      · intro _
        refine ⟨?_, ?_, ?_⟩
        · intro t ht
          show db.nextId ≤ t.id
          have hmem : t ∈ ([] : List Task) ++ ts := by rw [← hts]; exact ht
          simp only [List.nil_append] at hmem
          exact htsb t hmem
        · intro m hm
          show db.nextId ≤ m.id
          have hmem : m ∈ ([] : List Message) ++ ms := by rw [← hms]; exact hm
          simp only [List.nil_append] at hmem
          exact hmsb m hmem
        · intro e he
          show db.nextId ≤ e.id
          have hmem : e ∈ ([] : List TaskEvent) ++ es := by rw [← hes]; exact he
          simp only [List.nil_append] at hmem
          exact hesb e hmem
    | false =>
      have hsd : seedDemoData db language now =
          ((demoSeedTemplates language).foldlM (insertDemoTask (now - minutes 85)) db).bind
            (fun db1 => patchAppState db1 rid
              (fun s => { s with value := true, updatedAt := now })) := by
        unfold seedDemoData
        rw [hfind]
        rfl
      obtain ⟨db1, hdb1, hw1, ⟨ts, hts, _⟩, ⟨ms, hms, _⟩, ⟨es, hes, _⟩, hap, hnx⟩ :=
        seedFold_spec (now - minutes 85) (demoSeedTemplates language) db ⟨w1, w2, w3, w4⟩
      have hany : db1.app_state.any (fun x => x.id == rid) = true := by
        rw [hap]
        rw [List.any_eq_true]
        exact ⟨_, List.mem_of_find?_eq_some hfind, by simp⟩
      have hpatch : patchAppState db1 rid
          (fun s => { s with value := true, updatedAt := now }) =
          some { db1 with app_state := db1.app_state.map (fun s =>
            if s.id = rid then { s with value := true, updatedAt := now } else s) } := by
        unfold patchAppState
        rw [if_pos hany]
      refine ⟨_, by rw [hsd, hdb1]; exact hpatch, ?_, ?_⟩
      · intro _
        exact ⟨⟨ts, hts⟩, ⟨ms, hms⟩, ⟨es, hes⟩⟩
      · intro h
        exact Bool.noConfusion h

/-- Witness for C10 on the empty (hence flag-absent, well-formed)
database: seeding only appends. -/
theorem claim_C10_seed_no_delete_unless_flag_witness :
    ∃ db', seedDemoData dbEmpty DemoLanguage.en 0 = some db' ∧
      (∃ ts, db'.tasks = dbEmpty.tasks ++ ts) ∧
      (∃ ms, db'.messages = dbEmpty.messages ++ ms) ∧
      (∃ es, db'.task_events = dbEmpty.task_events ++ es) := by
  obtain ⟨db', h1, h2, _⟩ := claim_C10_seed_no_delete_unless_flag dbEmpty DemoLanguage.en 0
    (by refine ⟨?_, ?_, ?_, ?_⟩ <;> intro x hx <;> cases hx)
  exact ⟨db', h1, h2 (by decide)⟩
